import Mathlib

/-!
Shallow embedding of `src/scrambler.py` (pyspeedbinb): the Type 1 grid-key
descrambler and the Type 2 permutation-key descrambler, together with proofs
about their key parsing and coordinate calculation.

Python integer arithmetic is modelled on `Int`/`Nat`.  Python's floor
division and modulo (`//`, `%`, and `math.floor(a / b)` on exact small
values) agree with Lean's `Int` `/` (`Int.ediv`) and `%` (`Int.emod`) for
the positive divisors used by the code.  A Python expression that can raise
an exception (list indexing, `int(...)`) is modelled with `Option`: `none`
means the Python code raises.
-/

/-- A copy rectangle, as produced by both engines
(`{'xsrc': .., 'ysrc': .., 'width': .., 'height': .., 'xdest': .., 'ydest': ..}`). -/
structure Rect where
  xsrc : Int
  ysrc : Int
  width : Int
  height : Int
  xdest : Int
  ydest : Int
  deriving DecidableEq, Repr

/-- Python list indexing `l[i]`: non-negative indices from the front,
negative indices from the back, `IndexError` (modelled as `none`) otherwise. -/
def pyIndex (l : List Int) (i : Int) : Option Int :=
  if 0 ≤ i then l.get? i.toNat
  else if 0 ≤ i + l.length then l.get? (i + l.length).toNat
  else none

/-- A Python `for` loop that appends one result per iteration and can raise:
apply `f` to each element in order, stopping at the first exception
(`none`). -/
def mapO (f : α → Option β) : List α → Option (List β)
  | [] => some []
  | a :: l => (f a).bind fun b => (mapO f l).map (fun bs => b :: bs)

/-- Decimal digit test for the characters accepted by `int(...)` and by the
`[0-9]` classes in the Type 2 key regex. -/
def isDigitC (c : Char) : Bool :=
  48 ≤ c.toNat && c.toNat ≤ 57

/-- Numeric value of a (non-empty, all-digit) decimal string. -/
def natOfDigits (l : List Char) : Nat :=
  l.foldl (fun acc c => acc * 10 + (c.toNat - 48)) 0

/-- Python `int(s)` restricted to the plain-decimal strings that occur in
keys: succeeds on a non-empty all-digit string, otherwise raises
(`ValueError`, modelled as `none`). -/
def pyInt (l : List Char) : Option Nat :=
  if l ≠ [] ∧ l.all isDigitC then some (natOfDigits l) else none

/-- Python `str.split(sep)` for a one-character separator: splits on every
occurrence, keeping empty parts (`"a--b".split('-') = ['a','','b']`). -/
def splitChar (sep : Char) : List Char → List (List Char)
  | [] => [[]]
  | c :: cs =>
    let r := splitChar sep cs
    if c = sep then [] :: r
    else
      match r with
      | [] => [[c]]
      | g :: gs => (c :: g) :: gs

/-- Python `str.find(c)` on a list of characters: index of the first
occurrence, `-1` when absent. -/
def pyFind (l : List Char) (c : Char) : Int :=
  match l.findIdx? (fun x => x = c) with
  | some i => (i : Int)
  | none => -1

namespace Type1

/-- One entry of a Type 1 parsed map: logical grid coordinates `(x, y)` and
width/height factors `(w, h)` (`piece` dicts built by `Type1._parse_key`). -/
structure Piece where
  x : Int
  y : Int
  w : Int
  h : Int
  deriving DecidableEq, Repr

/-- A parsed Type 1 key: `{'ndx': ndx, 'ndy': ndy, 'piece': pieces}`. -/
structure Model where
  ndx : Nat
  ndy : Nat
  piece : List Piece
  deriving DecidableEq, Repr

/-- A constructed Type 1 engine: `Tt` is the scramble map (parsed from
`key_s`), `Pt` the unscramble map (parsed from `key_h`). -/
structure Engine where
  Tt : Model
  Pt : Model
  deriving DecidableEq, Repr

def upperChars : List Char := "ABCDEFGHIJKLMNOPQRSTUVWXYZ".toList
def lowerChars : List Char := "abcdefghijklmnopqrstuvwxyz".toList

/-- `Type1._parse_key.decode_char`: find the character among the uppercase
letters (flag 0) or else the lowercase letters (flag 1); `str.find` yields
`-1` for a character in neither alphabet, so the returned value is then
`1 + 2 * (-1) = -1`. -/
def decodeChar1 (t : Char) : Int × Int :=
  let n := pyFind upperChars t
  if n < 0 then
    let n2 := pyFind lowerChars t
    (1, 1 + 2 * n2)
  else
    (0, 0 + 2 * n)

/-- Width/height factors of piece `d` from the threshold chain in
`Type1._parse_key` (`a`, `f`, `c`, `l` computed from `ndx`, `ndy`;
`u`, `o` stay `0` past the last threshold). -/
def factors (ndx ndy d : Nat) : Int × Int :=
  let a : Int := ((ndx : Int) - 1) * ((ndy : Int) - 1) - 1
  let f : Int := (ndx : Int) - 1 + a
  let c : Int := (ndy : Int) - 1 + f
  let l : Int := 1 + c
  if (d : Int) ≤ a then (2, 2)
  else if (d : Int) ≤ f then (2, 1)
  else if (d : Int) ≤ c then (1, 2)
  else if (d : Int) ≤ l then (1, 1)
  else (0, 0)

/-- The piece built for grid index `d` in the `_parse_key` loop: the
decoded `x`/`y` values of the characters at positions `2d` and `2d+1`
(always in range thanks to the length check) and the threshold factors. -/
def buildPiece (ndx ndy : Nat) (data : List Char) (d : Nat) : Piece :=
  { x := (decodeChar1 (data.getD (2 * d) ' ')).2
    y := (decodeChar1 (data.getD (2 * d + 1) ' ')).2
    w := (factors ndx ndy d).1
    h := (factors ndx ndy d).2 }

/-- `Type1._parse_key`: split on `-`, convert the two grid sizes, check the
data length, and decode one piece per grid cell. -/
def parseKey (key : String) : Option Model :=
  match splitChar '-' key.toList with
  | [p0, p1, p2] => do
    let ndx ← pyInt p0
    let ndy ← pyInt p1
    let data := p2
    if data.length = ndx * ndy * 2 then
      some { ndx := ndx, ndy := ndy
             piece := (List.range (ndx * ndy)).map (buildPiece ndx ndy data) }
    else
      none
  | _ => none

/-- `Type1.__init__(key_h, key_s)`: parse the scramble map from `key_s` and
the unscramble map from `key_h`; raise (`none`) unless both parse and agree
on `(ndx, ndy)`. -/
def init (key_h key_s : String) : Option Engine := do
  let tt ← parseKey key_s
  let pt ← parseKey key_h
  if tt.ndx = pt.ndx ∧ tt.ndy = pt.ndy then
    some { Tt := tt, Pt := pt }
  else
    none

/-- The modulo-8 aligned base size and remainder used by
`Type1.calculate_coords` for one axis:
`n = extent - extent % 8`, `r = (n-1)//7 - ((n-1)//7) % 8`, `e = n - 7*r`. -/
def bases (extent : Int) : Int × Int :=
  let n := extent - extent % 8
  let q := (n - 1) / 7
  let r := q - q % 8
  (r, n - 7 * r)

/-- The position/size formula `floor(v / 2) * r + (v % 2) * e` used for all
coordinates and sizes in `Type1.calculate_coords`. -/
def posOf (r e v : Int) : Int :=
  v / 2 * r + v % 2 * e

/-- The rectangle emitted for one index: source fields from the scramble
piece `f`, destination fields from the unscramble piece `c`. -/
def tileRect (r e hh u : Int) (f c : Piece) : Rect :=
  { xsrc := posOf r e f.x
    ysrc := posOf hh u f.y
    width := posOf r e f.w
    height := posOf hh u f.h
    xdest := posOf r e c.x
    ydest := posOf hh u c.y }

/-- `Type1.calculate_coords`: one rectangle per piece index (indexing
`Pt.piece[a]` can raise when the maps have different lengths, hence
`Option`), then the right strip when `l < width` and the bottom strip when
`v < height`. -/
def calcCoords (eng : Engine) (width height : Int) : Option (List Rect) := do
  let r := (bases width).1
  let e := (bases width).2
  let hh := (bases height).1
  let u := (bases height).2
  let rects ← mapO (fun a => do
    let f ← eng.Tt.piece.get? a
    let c ← eng.Pt.piece.get? a
    pure (tileRect r e hh u f c)) (List.range eng.Tt.piece.length)
  let l := r * ((eng.Tt.ndx : Int) - 1) + e
  let v := hh * ((eng.Tt.ndy : Int) - 1) + u
  let rects1 := if l < width then
    rects ++ [{ xsrc := l, ysrc := 0, width := width - l, height := v,
                xdest := l, ydest := 0 }]
    else rects
  let rects2 := if v < height then
    rects1 ++ [{ xsrc := 0, ysrc := v, width := width, height := height - v,
                 xdest := 0, ydest := v }]
    else rects1
  pure rects2

end Type1

/-! ## Destination-coverage notions

A rectangle list "exactly partitions" the `w × h` image when every pixel of
`[0,w) × [0,h)` lies in exactly one destination rectangle and every
destination rectangle lies inside the image. -/

/-- Does the destination rectangle of `rc` contain the pixel `(px, py)`? -/
def coveredB (rc : Rect) (px py : Int) : Bool :=
  decide (rc.xdest ≤ px) && decide (px < rc.xdest + rc.width) &&
    decide (rc.ydest ≤ py) && decide (py < rc.ydest + rc.height)

/-- Number of rectangles of `rs` whose destination contains `(px, py)`. -/
def coveredCount (rs : List Rect) (px py : Int) : Nat :=
  rs.countP (fun rc => coveredB rc px py)

/-- Executable exact-partition check over all pixels of a `w × h` image. -/
def checkPartition (rs : List Rect) (w h : Nat) : Bool :=
  (List.range w).all fun px =>
    (List.range h).all fun py => coveredCount rs (px : Int) (py : Int) == 1

/-- The destination rectangles of `rs` exactly partition `[0,w) × [0,h)`:
every pixel is covered exactly once, and no rectangle sticks out of the
image. -/
def ExactPartition (rs : List Rect) (w h : Int) : Prop :=
  (∀ px py : Int, 0 ≤ px → px < w → 0 ≤ py → py < h →
    coveredCount rs px py = 1) ∧
  ∀ rc ∈ rs, 0 ≤ rc.xdest ∧ rc.xdest + rc.width ≤ w ∧
    0 ≤ rc.ydest ∧ rc.ydest + rc.height ≤ h

/-! ## Generic list lemmas for the loop embeddings -/

theorem mapO_eq_map (f : α → Option β) (g : α → β) :
    ∀ l : List α, (∀ a ∈ l, f a = some (g a)) → mapO f l = some (l.map g) := by
  intro l
  induction l with
  | nil => intro _; rfl
  | cons a l ih =>
    intro h
    simp [mapO, h a (List.mem_cons_self a l),
      ih (fun b hb => h b (List.mem_cons_of_mem a hb))]

theorem mapO_eq_none (f : α → Option β) :
    ∀ l : List α, (∃ a ∈ l, f a = none) → mapO f l = none := by
  intro l
  induction l with
  | nil => rintro ⟨a, ha, _⟩; cases ha
  | cons a l ih =>
    rintro ⟨b, hb, hfb⟩
    rcases List.mem_cons.mp hb with rfl | hb'
    · simp [mapO, hfb]
    · cases hfa : f a
      · simp [mapO, hfa]
      · simp [mapO, hfa, ih ⟨b, hb', hfb⟩]

theorem map_range_eq_zipWith (g : α → α → β) (d : α) :
    ∀ (l1 l2 : List α), l1.length = l2.length →
      (List.range l1.length).map (fun a => g (l1.getD a d) (l2.getD a d)) =
        List.zipWith g l1 l2 := by
  intro l1
  induction l1 with
  | nil => intro l2 h; simp
  | cons x xs ih =>
    intro l2 h
    cases l2 with
    | nil => simp at h
    | cons y ys =>
      simp only [List.length_cons, List.range_succ_eq_map, List.map_cons,
        List.map_map, List.zipWith_cons_cons, List.getD_cons_zero]
      refine congrArg _ ?_
      rw [← ih ys (by simpa using h)]
      rfl

theorem get?_eq_some_getD {α} (l : List α) (d : α) {i : Nat} (h : i < l.length) :
    l.get? i = some (l.getD i d) := by
  induction l generalizing i with
  | nil => simp at h
  | cons a l ih =>
    cases i with
    | zero => rfl
    | succ j => exact ih (by simpa using h)

namespace Type1

/-- Inversion of a successful `Type1._parse_key`: the model's pieces are the
per-index decodes of a data string of the checked length. -/
theorem parseKey_inv {key : String} {m : Model} (h : parseKey key = some m) :
    ∃ data : List Char, data.length = m.ndx * m.ndy * 2 ∧
      m.piece = (List.range (m.ndx * m.ndy)).map (buildPiece m.ndx m.ndy data) := by
  unfold parseKey at h
  split at h
  case h_1 p0 p1 p2 heq =>
    simp only [bind, Option.bind_eq_some] at h
    obtain ⟨ndx, -, h⟩ := h
    obtain ⟨ndy, -, h⟩ := h
    split at h
    case isTrue hl =>
      obtain rfl := Option.some_inj.mp h
      exact ⟨p2, hl, rfl⟩
    case isFalse => cases h
  case h_2 => cases h

/-- Inversion of a successful `Type1.__init__`: both keys parsed and the
grid sizes agree. -/
theorem init_inv {key_h key_s : String} {eng : Engine}
    (h : init key_h key_s = some eng) :
    parseKey key_s = some eng.Tt ∧ parseKey key_h = some eng.Pt ∧
      eng.Tt.ndx = eng.Pt.ndx ∧ eng.Tt.ndy = eng.Pt.ndy := by
  unfold init at h
  simp only [bind, Option.bind_eq_some] at h
  obtain ⟨tt, htt, h⟩ := h
  obtain ⟨pt, hpt, h⟩ := h
  split at h
  case isTrue hc =>
    obtain rfl := Option.some_inj.mp h
    exact ⟨htt, hpt, hc.1, hc.2⟩
  case isFalse => cases h

/-- The rectangle list described by the spec for `Type1.calculate_coords`:
modulo-8 aligned bases, one rectangle per index pairing the scramble piece
`f` (source, sizes) with the unscramble piece `c` (destination), then a
right remainder strip exactly when `L < width` followed by a bottom
remainder strip exactly when `V < height`. -/
def c5Formula (eng : Engine) (width height : Int) : List Rect :=
  let n := width - width % 8
  let r := (n - 1) / 7 - ((n - 1) / 7) % 8
  let e := n - 7 * r
  let s := height - height % 8
  let hh := (s - 1) / 7 - ((s - 1) / 7) % 8
  let u := s - 7 * hh
  let tiles := List.zipWith (fun f c =>
    { xsrc := f.x / 2 * r + f.x % 2 * e
      ysrc := f.y / 2 * hh + f.y % 2 * u
      width := f.w / 2 * r + f.w % 2 * e
      height := f.h / 2 * hh + f.h % 2 * u
      xdest := c.x / 2 * r + c.x % 2 * e
      ydest := c.y / 2 * hh + c.y % 2 * u : Rect }) eng.Tt.piece eng.Pt.piece
  let L := r * ((eng.Tt.ndx : Int) - 1) + e
  let V := hh * ((eng.Tt.ndy : Int) - 1) + u
  (tiles ++
      if L < width then
        [{ xsrc := L, ysrc := 0, width := width - L, height := V,
           xdest := L, ydest := 0 }]
      else []) ++
    if V < height then
      [{ xsrc := 0, ysrc := V, width := width, height := height - V,
         xdest := 0, ydest := V }]
    else []

/-- The tile loop of `calculate_coords` evaluates, for a constructed
engine, to the zip of the two piece lists. -/
theorem calcCoords_eq_of_lengths (eng : Engine) (width height : Int)
    (hlen : eng.Tt.piece.length = eng.Pt.piece.length) :
    calcCoords eng width height = some (c5Formula eng width height) := by
  show (mapO _ _).bind _ = _
  rw [mapO_eq_map _
    (fun a => tileRect (bases width).1 (bases width).2 (bases height).1
      (bases height).2 (eng.Tt.piece.getD a ⟨0, 0, 0, 0⟩)
      (eng.Pt.piece.getD a ⟨0, 0, 0, 0⟩))
    _ ?side]
  case side =>
    intro a ha
    have haT : a < eng.Tt.piece.length := List.mem_range.mp ha
    have haP : a < eng.Pt.piece.length := hlen ▸ haT
    rw [get?_eq_some_getD _ ⟨0, 0, 0, 0⟩ haT, get?_eq_some_getD _ ⟨0, 0, 0, 0⟩ haP]
    rfl
  rw [map_range_eq_zipWith _ _ _ _ hlen]
  simp only [c5Formula, bases, tileRect, posOf, Option.some_bind]
  split_ifs <;> simp <;> rfl

end Type1

/-! ## Claim C2: the concrete Type 1 case `"1-1-AA"` at 10 × 10 -/

/-- Claim C2: building a Type 1 engine from the key `"1-1-AA"` used as both
keys parses one piece `(x=0, y=0, w=1, h=1)` in each map, and
`calculate_coords(10, 10)` returns exactly the tile rectangle
`(0,0,8,8,0,0)`, the right remainder `(8,0,2,8,8,0)` and the bottom
remainder `(0,8,10,2,0,8)`, whose destinations cover the 10 × 10 image with
zero overlap. -/
theorem type1_concrete_key_case :
    Type1.init "1-1-AA" "1-1-AA" =
      some ⟨⟨1, 1, [⟨0, 0, 1, 1⟩]⟩, ⟨1, 1, [⟨0, 0, 1, 1⟩]⟩⟩ ∧
    Type1.calcCoords ⟨⟨1, 1, [⟨0, 0, 1, 1⟩]⟩, ⟨1, 1, [⟨0, 0, 1, 1⟩]⟩⟩ 10 10 =
      some [⟨0, 0, 8, 8, 0, 0⟩, ⟨8, 0, 2, 8, 8, 0⟩, ⟨0, 8, 10, 2, 0, 8⟩] ∧
    checkPartition [⟨0, 0, 8, 8, 0, 0⟩, ⟨8, 0, 2, 8, 8, 0⟩, ⟨0, 8, 10, 2, 0, 8⟩]
      10 10 = true := by
  refine ⟨by decide, by decide, by decide⟩

/-! ## Claim C5: the full output formula of `Type1.calculate_coords` -/

/-- Claim C5: for every constructed Type 1 engine and all dimensions,
`calculate_coords` emits exactly the rectangles given by the spec formula:
modulo-8 aligned bases, per-index tile rectangles pairing scramble source
with unscramble destination in index order, then the right remainder
exactly when `L < width` followed by the bottom remainder exactly when
`V < height`. -/
theorem type1_calc_coords_formula (key_h key_s : String) (eng : Type1.Engine)
    (width height : Int) (hinit : Type1.init key_h key_s = some eng) :
    Type1.calcCoords eng width height =
      some (Type1.c5Formula eng width height) := by
  obtain ⟨hts, hth, hx, hy⟩ := Type1.init_inv hinit
  obtain ⟨dataT, hlenT, hpT⟩ := Type1.parseKey_inv hts
  obtain ⟨dataP, hlenP, hpP⟩ := Type1.parseKey_inv hth
  refine Type1.calcCoords_eq_of_lengths eng width height ?_
  rw [hpT, hpP]
  simp [hx, hy]

/-- Witness for C5 at the key `"1-1-AA"` and a 10 × 10 image. -/
theorem type1_calc_coords_formula_witness :
    Type1.init "1-1-AA" "1-1-AA" =
      some ⟨⟨1, 1, [⟨0, 0, 1, 1⟩]⟩, ⟨1, 1, [⟨0, 0, 1, 1⟩]⟩⟩ ∧
    Type1.calcCoords ⟨⟨1, 1, [⟨0, 0, 1, 1⟩]⟩, ⟨1, 1, [⟨0, 0, 1, 1⟩]⟩⟩ 10 10 =
      some (Type1.c5Formula ⟨⟨1, 1, [⟨0, 0, 1, 1⟩]⟩, ⟨1, 1, [⟨0, 0, 1, 1⟩]⟩⟩ 10 10) :=
  ⟨by decide,
    type1_calc_coords_formula "1-1-AA" "1-1-AA" _ 10 10 (by decide)⟩

/-! ## Claim C7: non-letter characters in a Type 1 data section -/

/-- Counterexample to claim C7: the claim says a Type 1 key whose data
contains a digit fails to parse and engine construction fails; in the code
`decode_char` silently yields `-1` via `str.find`, so construction from
`"1-1-A0"` (both keys) succeeds. -/
theorem type1_nonletter_key_accepted :
    (Type1.init "1-1-A0" "1-1-A0").isSome = true := by decide

/-- Claim C7 (amended): a data character that is neither an uppercase nor a
lowercase ASCII letter decodes to `(flag 1, value -1)` rather than failing,
and a structurally well-formed key containing one still parses: `"1-1-A0"`
yields the piece `(x=0, y=-1, w=1, h=1)`. -/
theorem type1_nonletter_decodes_neg_one (c : Char)
    (h1 : pyFind Type1.upperChars c = -1) (h2 : pyFind Type1.lowerChars c = -1) :
    Type1.decodeChar1 c = (1, -1) ∧
      Type1.parseKey "1-1-A0" = some ⟨1, 1, [⟨0, -1, 1, 1⟩]⟩ := by
  constructor
  · simp [Type1.decodeChar1, h1, h2]
  · decide

/-- Witness for the amended C7 at the digit character. -/
theorem type1_nonletter_decodes_neg_one_witness :
    (pyFind Type1.upperChars '0' = -1 ∧ pyFind Type1.lowerChars '0' = -1) ∧
      (Type1.decodeChar1 '0' = (1, -1) ∧
        Type1.parseKey "1-1-A0" = some ⟨1, 1, [⟨0, -1, 1, 1⟩]⟩) :=
  ⟨⟨by decide, by decide⟩,
    type1_nonletter_decodes_neg_one '0' (by decide) (by decide)⟩

/-! ## Claim C8: Type 1 construction fails on bad keys, with no fallback -/

/-- Claim C8: if either Type 1 key fails to parse, or the two parsed models
disagree on `(ndx, ndy)`, engine construction raises (`none`): there is no
fallback engine. -/
theorem type1_init_fails_on_bad_keys (key_h key_s : String)
    (h : Type1.parseKey key_s = none ∨ Type1.parseKey key_h = none ∨
      ∃ mt mp, Type1.parseKey key_s = some mt ∧ Type1.parseKey key_h = some mp ∧
        (mt.ndx ≠ mp.ndx ∨ mt.ndy ≠ mp.ndy)) :
    Type1.init key_h key_s = none := by
  unfold Type1.init
  rcases h with h | h | ⟨mt, mp, h1, h2, h3⟩
  · simp [h]
  · cases hts : Type1.parseKey key_s
    · rfl
    · simp [hts, h]
  · simp only [h1, h2, Option.some_bind]
    have : ¬(mt.ndx = mp.ndx ∧ mt.ndy = mp.ndy) := by
      rcases h3 with h3 | h3 <;> intro hc <;> exact h3 (by simp [hc.1, hc.2])
    simp [this]

/-- Witness for C8: `"1-1-AA"` (1 × 1 grid) against `"1-2-AAAA"` (1 × 2
grid) parse but disagree on `ndy`, so construction fails. -/
theorem type1_init_fails_on_bad_keys_witness :
    (Type1.parseKey "1-1-AA" = none ∨ Type1.parseKey "1-2-AAAA" = none ∨
      ∃ mt mp, Type1.parseKey "1-1-AA" = some mt ∧
        Type1.parseKey "1-2-AAAA" = some mp ∧
        (mt.ndx ≠ mp.ndx ∨ mt.ndy ≠ mp.ndy)) ∧
    Type1.init "1-2-AAAA" "1-1-AA" = none :=
  have h : Type1.parseKey "1-1-AA" = none ∨ Type1.parseKey "1-2-AAAA" = none ∨
      ∃ mt mp, Type1.parseKey "1-1-AA" = some mt ∧
        Type1.parseKey "1-2-AAAA" = some mp ∧
        (mt.ndx ≠ mp.ndx ∨ mt.ndy ≠ mp.ndy) :=
    Or.inr (Or.inr ⟨⟨1, 1, [⟨0, 0, 1, 1⟩]⟩, ⟨1, 2, [⟨0, 0, 1, 2⟩, ⟨0, 0, 1, 1⟩]⟩,
      by decide, by decide, Or.inr (by decide)⟩)
  ⟨h, type1_init_fails_on_bad_keys "1-2-AAAA" "1-1-AA" h⟩

namespace Type2

/-- The fixed 128-entry `Type2._Jt` lookup table (base64-url-like alphabet:
digits at 52–61, uppercase at 0–25, lowercase at 26–51, `-` at 62, `_` at
63, `-1` everywhere else). -/
def Jt : List Int :=
  [-1, -1, -1, -1, -1, -1, -1, -1, -1, -1, -1, -1, -1, -1, -1, -1,
   -1, -1, -1, -1, -1, -1, -1, -1, -1, -1, -1, -1, -1, -1, -1, -1,
   -1, -1, -1, -1, -1, -1, -1, -1, -1, -1, -1, -1, -1, 62, -1, -1,
   52, 53, 54, 55, 56, 57, 58, 59, 60, 61, -1, -1, -1, -1, -1, -1,
   -1, 0, 1, 2, 3, 4, 5, 6, 7, 8, 9, 10, 11, 12, 13, 14,
   15, 16, 17, 18, 19, 20, 21, 22, 23, 24, 25, -1, -1, -1, -1, 63,
   -1, 26, 27, 28, 29, 30, 31, 32, 33, 34, 35, 36, 37, 38, 39, 40,
   41, 42, 43, 44, 45, 46, 47, 48, 49, 50, 51, -1, -1, -1, -1, -1]

/-- `Type2._decode_char`: table lookup for an in-range code point, `-1`
otherwise. -/
def decodeChar2 (charCode : Nat) : Int :=
  if charCode < Jt.length then Jt.getD charCode (-1) else -1

/-- The character class `[-_0-9A-Za-z]` of the Type 2 grammar, on ASCII
code points. -/
def isDataCode (n : Nat) : Bool :=
  n == 45 || n == 95 || (48 ≤ n && n ≤ 57) || (65 ≤ n && n ≤ 90) ||
    (97 ≤ n && n ≤ 122)

/-- The character class `[-_0-9A-Za-z]` of the Type 2 data section. -/
def isDataChar (c : Char) : Bool :=
  isDataCode c.toNat

/-- The five captured groups of the Type 2 key regex. -/
structure Groups where
  t : List Char
  j : List Char
  sign : Char
  d : List Char
  data : List Char
  deriving DecidableEq, Repr

/-- The regex `^=([0-9]+)-([0-9]+)([-+])([0-9]+)-([-_0-9A-Za-z]+)$` as a
deterministic matcher, with Python `re.match` semantics.  Each `[0-9]+` and
the data class take a maximal run; this is equivalent to the backtracking
regex because giving characters back would leave a class character facing a
separator (or `$`) that cannot consume it.  Python's `$` (without
`re.MULTILINE`) matches at the end of the string or just before one
trailing newline, so the data run may be followed by nothing or by a single
final `'\n'`. -/
def matchKey (cs : List Char) : Option Groups :=
  match cs with
  | '=' :: r0 =>
    match r0.takeWhile isDigitC, r0.dropWhile isDigitC with
    | t0 :: ts, '-' :: r1 =>
      match r1.takeWhile isDigitC, r1.dropWhile isDigitC with
      | j0 :: js, sg :: r2 =>
        if sg = '-' ∨ sg = '+' then
          match r2.takeWhile isDigitC, r2.dropWhile isDigitC with
          | d0 :: ds, '-' :: data =>
            if data.takeWhile isDataChar ≠ [] ∧
                (data.dropWhile isDataChar = [] ∨
                  data.dropWhile isDataChar = ['\n']) then
              some ⟨t0 :: ts, j0 :: js, sg, d0 :: ds, data.takeWhile isDataChar⟩
            else none
          | _, _ => none
        else none
      | _, _ => none
    | _, _ => none
  | _ => none

/-- A constructed Type 2 engine: `kt` is the final permutation (`None`
until the whole parse succeeds), `Rt`/`Ft` the scramble-side and `Lt`/`Nt`
the unscramble-side adjustment vectors. -/
structure Engine where
  kt : Option (List Int)
  T : Nat
  j : Nat
  Dt : Nat
  Rt : List Int
  Ft : List Int
  Lt : List Int
  Nt : List Int
  deriving DecidableEq, Repr

/-- The engine state left by `Type2.__init__` before `_parse_keys` assigns
anything. -/
def defaultEngine : Engine :=
  { kt := none, T := 0, j := 0, Dt := 0, Rt := [], Ft := [], Lt := [], Nt := [] }

/-- The three decoded sections of one sub-key
(`Type2._parse_sub_key`). -/
structure SubKey where
  t : List Int
  n : List Int
  p : List Int
  deriving DecidableEq, Repr

/-- `Type2._parse_sub_key`: `T` horizontal factors, then `j` vertical
factors, then the `T*j` raw permutation values, each decoded through the
table (indices are in range thanks to the caller's length check). -/
def parseSubKey (T j : Nat) (data : List Char) : SubKey :=
  { t := (List.range T).map (fun i => decodeChar2 (data.getD i ' ').toNat)
    n := (List.range j).map (fun i => decodeChar2 (data.getD (T + i) ' ').toNat)
    p := (List.range (T * j)).map
      (fun i => decodeChar2 (data.getD (T + j + i) ' ').toNat) }

/-- The body of `Type2._parse_keys` once both regexes have matched:
structure comparison, size limits, length checks (each leaving the engine
without a permutation on failure), then the `kt` indirection loop, whose
Python list indexing can raise (`none`). -/
def initSome (sm hm : Groups) : Option Engine :=
  if sm.t ≠ hm.t ∨ sm.j ≠ hm.j ∨ sm.d ≠ hm.d ∨ sm.sign ≠ '+' ∨ hm.sign ≠ '-' then
    some defaultEngine
  else
    let T := natOfDigits sm.t
    let j := natOfDigits sm.j
    let D := natOfDigits sm.d
    if T > 8 ∨ j > 8 ∨ T * j > 64 then
      some { defaultEngine with T := T, j := j, Dt := D }
    else if sm.data.length ≠ T + j + T * j ∨ hm.data.length ≠ T + j + T * j then
      some { defaultEngine with T := T, j := j, Dt := D }
    else
      let sp := parseSubKey T j sm.data
      let hp := parseSubKey T j hm.data
      match mapO (fun (u : Nat) => (pyIndex hp.p (u : Int)).bind
          (fun hv => pyIndex sp.p hv)) (List.range (T * j)) with
      | some ktl =>
        some { kt := some ktl, T := T, j := j, Dt := D,
               Rt := sp.n, Ft := sp.t, Lt := hp.n, Nt := hp.t }
      | none => none

/-- `Type2.__init__` / `Type2._parse_keys`: regex-match both keys, then run
the remaining checks and the permutation build; any regex failure leaves
the freshly initialised engine unchanged (no permutation). -/
def init (key_h key_s : String) : Option Engine :=
  match matchKey key_s.toList, matchKey key_h.toList with
  | some sm, some hm => initSome sm hm
  | _, _ => some defaultEngine

/-- `Type2.calculate_coords`: identity rectangle when `kt` is `None` or
empty (Python falsiness); otherwise the even-division tiling with border
margin `Dt` and index indirection through `kt`, emitting one rectangle per
flat index when `i > 0 and n > 0`.  Division by a zero `T`/`j` and
out-of-range adjustment-vector indexing raise (`none`). -/
def calcCoords (eng : Engine) (width height : Int) : Option (List Rect) :=
  match eng.kt with
  | none => some [{ xsrc := 0, ysrc := 0, width := width, height := height,
                    xdest := 0, ydest := 0 }]
  | some ktl =>
    if ktl = [] then
      some [{ xsrc := 0, ysrc := 0, width := width, height := height,
              xdest := 0, ydest := 0 }]
    else if eng.T = 0 ∨ eng.j = 0 then none
    else
      let T : Int := eng.T
      let jj : Int := eng.j
      let D : Int := eng.Dt
      let i := width - 2 * T * D
      let n := height - 2 * jj * D
      let r := (i + T - 1) / T
      let e := i - (T - 1) * r
      let s := (n + jj - 1) / jj
      let h := n - (jj - 1) * s
      (mapO (fun o => do
        let a : Nat := o % eng.T
        let f : Nat := o / eng.T
        let ltf ← pyIndex eng.Lt (f : Int)
        let c := D + (a : Int) * (r + 2 * D) + (if ltf < (a : Int) then e - r else 0)
        let nta ← pyIndex eng.Nt (a : Int)
        let l := D + (f : Int) * (s + 2 * D) + (if nta < (f : Int) then h - s else 0)
        let kto ← pyIndex ktl (o : Int)
        let v := kto % T
        let d := kto / T
        let rtd ← pyIndex eng.Rt d
        let b := v * r + (if rtd < v then e - r else 0)
        let ftv ← pyIndex eng.Ft v
        let g := d * s + (if ftv < d then h - s else 0)
        let p := if ltf = (a : Int) then e else r
        let m := if nta = (f : Int) then h else s
        pure (if 0 < i ∧ 0 < n then
          [({ xsrc := c, ysrc := l, width := p, height := m,
              xdest := b, ydest := g } : Rect)]
          else []))
        (List.range (eng.T * eng.j))).map List.flatten

end Type2

/-! ## More loop/indexing lemmas -/

theorem mapO_some_length {f : α → Option β} :
    ∀ {l : List α} {bs : List β}, mapO f l = some bs → bs.length = l.length := by
  intro l
  induction l with
  | nil => intro bs h; cases h; rfl
  | cons a l ih =>
    intro bs h
    cases hfa : f a with
    | none => rw [mapO, hfa] at h; cases h
    | some b =>
      rw [mapO, hfa] at h
      cases hml : mapO f l with
      | none => rw [hml] at h; cases h
      | some cs =>
        rw [hml] at h
        obtain rfl := Option.some_inj.mp h
        simp [ih hml]

theorem mapO_some_mem {f : α → Option β} :
    ∀ {l : List α} {bs : List β}, mapO f l = some bs →
      ∀ b ∈ bs, ∃ a ∈ l, f a = some b := by
  intro l
  induction l with
  | nil => intro bs h; cases h; intro b hb; cases hb
  | cons a l ih =>
    intro bs h b hb
    cases hfa : f a with
    | none => rw [mapO, hfa] at h; cases h
    | some b0 =>
      rw [mapO, hfa] at h
      cases hml : mapO f l with
      | none => rw [hml] at h; cases h
      | some cs =>
        rw [hml] at h
        obtain rfl := Option.some_inj.mp h
        rcases List.mem_cons.mp hb with rfl | hb'
        · exact ⟨a, List.mem_cons_self a l, hfa⟩
        · obtain ⟨a', ha', hfa'⟩ := ih hml b hb'
          exact ⟨a', List.mem_cons_of_mem a ha', hfa'⟩

theorem mapO_none_iff {f : α → Option β} {l : List α} :
    mapO f l = none ↔ ∃ a ∈ l, f a = none := by
  constructor
  · intro h
    induction l with
    | nil => cases h
    | cons a l ih =>
      cases hfa : f a with
      | none => exact ⟨a, List.mem_cons_self a l, hfa⟩
      | some b =>
        rw [mapO, hfa] at h
        cases hml : mapO f l with
        | none =>
          obtain ⟨a', ha', hfa'⟩ := ih hml
          exact ⟨a', List.mem_cons_of_mem a ha', hfa'⟩
        | some cs => rw [hml] at h; cases h
  · exact mapO_eq_none f l

theorem getD_mem {α} {l : List α} {i : Nat} (d : α) (h : i < l.length) :
    l.getD i d ∈ l := by
  induction l generalizing i with
  | nil => simp at h
  | cons a l ih =>
    cases i with
    | zero => exact List.mem_cons_self a l
    | succ k => exact List.mem_cons_of_mem a (ih (by simpa using h))

theorem pyIndex_of_nonneg_lt (l : List Int) (i : Int) (h0 : 0 ≤ i)
    (h : i < (l.length : Int)) : pyIndex l i = some (l.getD i.toNat 0) := by
  have hlt : i.toNat < l.length := by omega
  rw [pyIndex, if_pos h0, get?_eq_some_getD l 0 hlt]

theorem pyIndex_mem {l : List Int} {i : Int} {x : Int}
    (h : pyIndex l i = some x) : x ∈ l := by
  unfold pyIndex at h
  split at h
  · exact List.get?_mem h
  · split at h
    · exact List.get?_mem h
    · cases h

theorem pyIndex_eq_none_iff (l : List Int) (i : Int) :
    pyIndex l i = none ↔ i < -(l.length : Int) ∨ (l.length : Int) ≤ i := by
  unfold pyIndex
  split
  case isTrue h0 =>
    rw [List.get?_eq_none]
    omega
  case isFalse h0 =>
    split
    case isTrue h1 =>
      rw [List.get?_eq_none]
      omega
    case isFalse h1 =>
      simp
      omega

theorem flatten_map_singleton {α β} (g : α → β) (l : List α) :
    (l.map (fun a => [g a])).flatten = l.map g := by
  induction l with
  | nil => rfl
  | cons a l ih => simp [ih]

/-! ## The Type 2 grammar alphabet and matcher inversion -/

/-- Every character that can occur anywhere in a string accepted by the
Type 2 key regex. -/
def grammarChar (c : Char) : Bool :=
  c == '=' || c == '+' || c == '-' || isDigitC c || Type2.isDataChar c

namespace Type2

/-- Inversion of a successful regex match: the input decomposes into the
groups (possibly followed by one trailing newline, which Python's `$`
accepts), the numeric groups are non-empty digit runs, the sign is `-` or
`+`, and the data section is a non-empty run over `[-_0-9A-Za-z]`. -/
theorem matchKey_inv {cs : List Char} {g : Groups} (h : matchKey cs = some g) :
    (cs = '=' :: (g.t ++ '-' :: (g.j ++ g.sign :: (g.d ++ '-' :: g.data))) ∨
      cs = '=' :: (g.t ++ '-' :: (g.j ++ g.sign :: (g.d ++ '-' ::
        (g.data ++ ['\n']))))) ∧
    g.t ≠ [] ∧ g.t.all isDigitC = true ∧
    g.j ≠ [] ∧ g.j.all isDigitC = true ∧
    (g.sign = '-' ∨ g.sign = '+') ∧
    g.d ≠ [] ∧ g.d.all isDigitC = true ∧
    g.data ≠ [] ∧ g.data.all isDataChar = true := by
  unfold matchKey at h
  split at h
  case h_2 => cases h
  case h_1 r0 =>
    split at h
    case h_2 => cases h
    case h_1 t0 ts r1 heq1 heq2 =>
      split at h
      case h_2 => cases h
      case h_1 j0 js sg r2 heq3 heq4 =>
        split at h
        case isFalse => cases h
        case isTrue hsg =>
          split at h
          case h_2 => cases h
          case h_1 d0 ds data heq5 heq6 =>
            split at h
            case isFalse => cases h
            case isTrue hdata =>
              obtain rfl := Option.some_inj.mp h
              have e1 : r0 = (t0 :: ts) ++ '-' :: r1 := by
                rw [← heq1, ← heq2, List.takeWhile_append_dropWhile]
              have e2 : r1 = (j0 :: js) ++ sg :: r2 := by
                rw [← heq3, ← heq4, List.takeWhile_append_dropWhile]
              have e3 : r2 = (d0 :: ds) ++ '-' :: data := by
                rw [← heq5, ← heq6, List.takeWhile_append_dropWhile]
              have e4 : data.takeWhile isDataChar ++ data.dropWhile isDataChar
                  = data := List.takeWhile_append_dropWhile isDataChar data
              refine ⟨?_, by simp, ?_, by simp, ?_, hsg, by simp, ?_,
                hdata.1, ?_⟩
              · rcases hdata.2 with hrest | hrest
                · rw [hrest, List.append_nil] at e4
                  exact Or.inl (by rw [e1, e2, e3, e4])
                · rw [hrest] at e4
                  rw [← e4] at e3
                  exact Or.inr (by rw [e1, e2, e3])
              · rw [← heq1]; exact List.all_eq_true.mpr
                  (fun a ha => List.mem_takeWhile_imp ha)
              · rw [← heq3]; exact List.all_eq_true.mpr
                  (fun a ha => List.mem_takeWhile_imp ha)
              · rw [← heq5]; exact List.all_eq_true.mpr
                  (fun a ha => List.mem_takeWhile_imp ha)
              · exact List.all_eq_true.mpr
                  (fun a ha => List.mem_takeWhile_imp ha)

/-- Soundness of the matcher for the grammar alphabet: an accepted key
consists only of grammar characters, except possibly for a single trailing
newline (which Python's `$` anchor tolerates). -/
theorem matchKey_chars {cs : List Char} {g : Groups} (h : matchKey cs = some g) :
    ∀ c ∈ cs, grammarChar c = true ∨ c = '\n' := by
  obtain ⟨hcs, -, ht, -, hj, hsg, -, hd, -, hdata⟩ := matchKey_inv h
  intro c hc
  have digitOk : ∀ x : Char, isDigitC x = true → grammarChar x = true := by
    intro x hx; simp [grammarChar, hx]
  have dataOk : ∀ x : Char, isDataChar x = true → grammarChar x = true := by
    intro x hx; simp [grammarChar, hx]
  have core : ∀ d ∈ '=' :: (g.t ++ '-' :: (g.j ++ g.sign :: (g.d ++ '-' ::
      g.data))), grammarChar d = true := by
    intro d hd2
    rcases List.mem_cons.mp hd2 with rfl | hd2
    · decide
    rcases List.mem_append.mp hd2 with hd2 | hd2
    · exact digitOk d (List.all_eq_true.mp ht d hd2)
    rcases List.mem_cons.mp hd2 with rfl | hd2
    · decide
    rcases List.mem_append.mp hd2 with hd2 | hd2
    · exact digitOk d (List.all_eq_true.mp hj d hd2)
    rcases List.mem_cons.mp hd2 with rfl | hd2
    · rcases hsg with hsg | hsg <;> rw [hsg] <;> decide
    rcases List.mem_append.mp hd2 with hd2 | hd2
    · exact digitOk d (List.all_eq_true.mp hd d hd2)
    rcases List.mem_cons.mp hd2 with rfl | hd2
    · decide
    · exact dataOk d (List.all_eq_true.mp hdata d hd2)
  rcases hcs with hcs | hcs
  · rw [hcs] at hc
    exact Or.inl (core c hc)
  · have h2 : c ∈ ('=' :: (g.t ++ '-' :: (g.j ++ g.sign :: (g.d ++ '-' ::
        g.data)))) ++ ['\n'] := by
      rw [hcs] at hc
      simpa only [List.cons_append, List.append_assoc] using hc
    rcases List.mem_append.mp h2 with hmem2 | hmem2
    · exact Or.inl (core c hmem2)
    · exact Or.inr (by simpa using hmem2)

end Type2

/-! ## Claim C6: Type 2 fallback on a key with an invalid character -/

set_option maxRecDepth 16384 in
/-- Counterexample to C6 as stated: the scramble key
`"=2-2+1-AAAAAAAA\n"` contains `'\n'`, a character outside the grammar
alphabet, yet Python's `$` anchor matches before the single trailing
newline, so the engine builds the permutation `[0, 0, 0, 0]` and
`calculate_coords 30 30` returns four tile rectangles, not the single
identity rectangle. -/
theorem type2_newline_key_builds_permutation :
    grammarChar '\x0a' = false ∧
    '\x0a' ∈ ("=2-2+1-AAAAAAAA\n").toList ∧
    Type2.init "=2-2-1-AAAAAAAA" "=2-2+1-AAAAAAAA\n" =
      some { kt := some [0, 0, 0, 0], T := 2, j := 2, Dt := 1,
             Rt := [0, 0], Ft := [0, 0], Lt := [0, 0], Nt := [0, 0] } ∧
    Type2.calcCoords
        { kt := some [0, 0, 0, 0], T := 2, j := 2, Dt := 1,
          Rt := [0, 0], Ft := [0, 0], Lt := [0, 0], Nt := [0, 0] } 30 30 =
      some [{ xsrc := 1, ysrc := 1, width := 13, height := 13,
              xdest := 0, ydest := 0 },
            { xsrc := 16, ysrc := 1, width := 13, height := 13,
              xdest := 0, ydest := 0 },
            { xsrc := 1, ysrc := 16, width := 13, height := 13,
              xdest := 0, ydest := 0 },
            { xsrc := 16, ysrc := 16, width := 13, height := 13,
              xdest := 0, ydest := 0 }] := by
  refine ⟨by decide, by decide, by decide, by decide⟩

/-- Claim C6 (amended): a Type 2 engine built from a key pair in which one
key contains a character outside the grammar alphabet — other than a single
trailing newline, which Python's `$` anchor tolerates — holds no
permutation, and its `calculate_coords` returns exactly the single identity
rectangle `(0, 0, width, height, 0, 0)` for every size. -/
theorem type2_invalid_char_fallback (key_h key_s : String) (c : Char)
    (hc : grammarChar c = false) (hnl : c ≠ '\x0a')
    (hmem : c ∈ key_s.toList ∨ c ∈ key_h.toList) :
    Type2.init key_h key_s = some Type2.defaultEngine ∧
      ∀ w h : Int, Type2.calcCoords Type2.defaultEngine w h =
        some [{ xsrc := 0, ysrc := 0, width := w, height := h,
                xdest := 0, ydest := 0 }] := by
  refine ⟨?_, fun w h => rfl⟩
  rcases hmem with hmem | hmem
  · cases hms : Type2.matchKey key_s.toList with
    | none => unfold Type2.init; rw [hms]
    | some g =>
      rcases Type2.matchKey_chars hms c hmem with hg | hg
      · exact absurd hg (by simp [hc])
      · exact absurd hg hnl
  · cases hmh : Type2.matchKey key_h.toList with
    | none =>
      unfold Type2.init
      rw [hmh]
      cases hms : Type2.matchKey key_s.toList <;> rfl
    | some g =>
      rcases Type2.matchKey_chars hmh c hmem with hg | hg
      · exact absurd hg (by simp [hc])
      · exact absurd hg hnl

/-- Witness for C6: the one-character key `"!"`. -/
theorem type2_invalid_char_fallback_witness :
    (grammarChar '!' = false ∧ '!' ≠ '\x0a' ∧ '!' ∈ "!".toList) ∧
      (Type2.init "!" "!" = some Type2.defaultEngine ∧
        ∀ w h : Int, Type2.calcCoords Type2.defaultEngine w h =
          some [{ xsrc := 0, ysrc := 0, width := w, height := h,
                  xdest := 0, ydest := 0 }]) :=
  ⟨⟨by decide, by decide, by decide⟩,
    type2_invalid_char_fallback "!" "!" '!' (by decide) (by decide)
      (Or.inl (by decide))⟩

/-! ## Claim C10: the Type 2 data alphabet decodes inside `[0, 63]` -/

set_option maxRecDepth 4096 in
/-- Every ASCII code admitted by `[-_0-9A-Za-z]` maps through the table to
`[0, 63]` (checked exhaustively over the 128 table entries). -/
theorem decode2_in_range :
    ∀ n, n < 128 → Type2.isDataCode n = true →
      0 ≤ Type2.decodeChar2 n ∧ Type2.decodeChar2 n ≤ 63 := by decide

/-- A data-class code point is below the table size. -/
theorem dataCode_lt_128 {n : Nat} (h : Type2.isDataCode n = true) : n < 128 := by
  simp only [Type2.isDataCode, Bool.or_eq_true, beq_iff_eq, Bool.and_eq_true,
    decide_eq_true_eq] at h
  omega

/-- Characters of the Type 2 data class decode to `[0, 63]`. -/
theorem decode2_range_of_dataChar {c : Char} (hc : Type2.isDataChar c = true) :
    0 ≤ Type2.decodeChar2 c.toNat ∧ Type2.decodeChar2 c.toNat ≤ 63 :=
  decode2_in_range c.toNat (dataCode_lt_128 hc) hc

/-- Claim C10: every character admitted by the Type 2 data-section grammar
class `[-_0-9A-Za-z]` decodes through the 128-entry lookup table to a value
in `[0, 63]`; in particular the `-1` invalid-character result is
unreachable for such characters. -/
theorem type2_data_char_decode_safe (c : Char) (hc : Type2.isDataChar c = true) :
    0 ≤ Type2.decodeChar2 c.toNat ∧ Type2.decodeChar2 c.toNat ≤ 63 ∧
      Type2.decodeChar2 c.toNat ≠ -1 := by
  obtain ⟨h0, h63⟩ := decode2_range_of_dataChar hc
  exact ⟨h0, h63, by omega⟩

/-- Witness for C10 at the character `'-'` (which decodes to 62). -/
theorem type2_data_char_decode_safe_witness :
    Type2.isDataChar '-' = true ∧
      (0 ≤ Type2.decodeChar2 '-'.toNat ∧ Type2.decodeChar2 '-'.toNat ≤ 63 ∧
        Type2.decodeChar2 '-'.toNat ≠ -1) :=
  ⟨by decide, type2_data_char_decode_safe '-' (by decide)⟩


namespace Type2

/-- Every raw permutation value of a sub-key is the decode of some data
character. -/
theorem subKey_p_mem {T j : Nat} {data : List Char}
    (hlen : data.length = T + j + T * j) :
    ∀ x ∈ (parseSubKey T j data).p, ∃ c ∈ data, x = decodeChar2 c.toNat := by
  intro x hx
  simp only [parseSubKey, List.mem_map, List.mem_range] at hx
  obtain ⟨i, hi, rfl⟩ := hx
  exact ⟨data.getD (T + j + i) ' ', getD_mem ' ' (by omega), rfl⟩

set_option maxRecDepth 4096 in
/-- Inversion of a successful `Type2.__init__` that produced a permutation:
all vector lengths match the grid, and every permutation value is a table
value in `[0, 63]`. -/
theorem init_kt_inv {key_h key_s : String} {eng : Engine} {l : List Int}
    (h : init key_h key_s = some eng) (hkt : eng.kt = some l) :
    l.length = eng.T * eng.j ∧ eng.Lt.length = eng.j ∧ eng.Nt.length = eng.T ∧
      eng.Rt.length = eng.j ∧ eng.Ft.length = eng.T ∧
      ∀ x ∈ l, 0 ≤ x ∧ x ≤ 63 := by
  unfold init at h
  split at h
  case h_2 => obtain rfl := Option.some_inj.mp h; cases hkt
  case h_1 sm hm heqs heqh =>
    unfold initSome at h
    split at h
    case isTrue => obtain rfl := Option.some_inj.mp h; cases hkt
    case isFalse hstruct =>
      simp only [] at h
      split at h
      case isTrue => obtain rfl := Option.some_inj.mp h; cases hkt
      case isFalse hlim =>
        split at h
        case isTrue => obtain rfl := Option.some_inj.mp h; cases hkt
        case isFalse hsize =>
          split at h
          case h_2 => cases h
          case h_1 ktl hmap =>
            obtain rfl := Option.some_inj.mp h
            obtain rfl : ktl = l := Option.some_inj.mp hkt
            push_neg at hsize
            obtain ⟨-, -, -, -, -, -, -, -, -, hsdata⟩ := matchKey_inv heqs
            refine ⟨?_, by simp [parseSubKey], by simp [parseSubKey],
              by simp [parseSubKey], by simp [parseSubKey], ?_⟩
            · simpa using mapO_some_length hmap
            · intro x hx
              obtain ⟨u, -, hu⟩ := mapO_some_mem hmap x hx
              simp only [Option.bind_eq_some] at hu
              obtain ⟨hv, -, hsp⟩ := hu
              obtain ⟨c, hcmem, rfl⟩ := subKey_p_mem hsize.1 x (pyIndex_mem hsp)
              exact decode2_range_of_dataChar (List.all_eq_true.mp hsdata c hcmem)

end Type2


theorem flatten_map_nil {α β} (l : List α) :
    (l.map (fun _ => ([] : List β))).flatten = [] := by
  induction l with
  | nil => rfl
  | cons a l ih => simp [ih]

namespace Type2

/-- The adjustment summand `e - r if vec[idx] < cmp else 0` used for the
destination origin. -/
def adjD (vec : List Int) (idx cmp delta : Int) : Int :=
  if vec.getD idx.toNat 0 < cmp then delta else 0

/-- The rectangle described by the spec for flat index `o` of a valid
Type 2 model: base sizes `r = ⌈i/T⌉`, `e = i - (T-1)r` (`s`, `h`
vertically); source origin offset by the border `Dt` and the unscramble
adjustment vectors (`Lt` indexed by the row against the column, `Nt` by the
column against the row); destination origin through the permuted index
`kt[o]` and the scramble vectors `Rt`, `Ft`, with no border offset; the
tile takes the remainder size exactly on the adjusted row/column. -/
def c4Body (eng : Engine) (ktl : List Int) (width height : Int) (o : Nat) : Rect :=
  let T : Int := eng.T
  let jj : Int := eng.j
  let D : Int := eng.Dt
  let i := width - 2 * T * D
  let n := height - 2 * jj * D
  let r := (i + T - 1) / T
  let e := i - (T - 1) * r
  let s := (n + jj - 1) / jj
  let h := n - (jj - 1) * s
  let col : Nat := o % eng.T
  let row : Nat := o / eng.T
  let target := ktl.getD o 0
  let dcol := target % T
  let drow := target / T
  { xsrc := D + (col : Int) * (r + 2 * D) +
      (if eng.Lt.getD row 0 < (col : Int) then e - r else 0)
    ysrc := D + (row : Int) * (s + 2 * D) +
      (if eng.Nt.getD col 0 < (row : Int) then h - s else 0)
    width := if eng.Lt.getD row 0 = (col : Int) then e else r
    height := if eng.Nt.getD col 0 = (row : Int) then h else s
    xdest := dcol * r + adjD eng.Rt drow dcol (e - r)
    ydest := drow * s + adjD eng.Ft dcol drow (h - s) }

/-- The full rectangle list described by the spec for a valid Type 2 model:
one `c4Body` rectangle per flat index, in ascending order, and nothing
else. -/
def c4Formula (eng : Engine) (ktl : List Int) (width height : Int) : List Rect :=
  (List.range (eng.T * eng.j)).map (c4Body eng ktl width height)

/-- Full evaluation of `Type2.calculate_coords` on a structurally valid
engine: the result is the spec formula when the interior is non-degenerate
and the empty list otherwise. -/
theorem calcCoords_eval (eng : Engine) (ktl : List Int) (width height : Int)
    (hkt : eng.kt = some ktl) (hne : ktl ≠ [])
    (hlen : ktl.length = eng.T * eng.j)
    (hLt : eng.Lt.length = eng.j) (hNt : eng.Nt.length = eng.T)
    (hRt : eng.Rt.length = eng.j) (hFt : eng.Ft.length = eng.T)
    (hval : ∀ x ∈ ktl, 0 ≤ x ∧ x < (eng.T : Int) * (eng.j : Int)) :
    calcCoords eng width height =
      some (if 0 < width - 2 * (eng.T : Int) * (eng.Dt : Int) ∧
              0 < height - 2 * (eng.j : Int) * (eng.Dt : Int)
            then c4Formula eng ktl width height else []) := by
  have hT : 0 < eng.T := by
    rcases Nat.eq_zero_or_pos eng.T with h0 | h0
    · exact absurd (List.length_eq_zero.mp (by simp [hlen, h0])) hne
    · exact h0
  have hj : 0 < eng.j := by
    rcases Nat.eq_zero_or_pos eng.j with h0 | h0
    · exact absurd (List.length_eq_zero.mp (by simp [hlen, h0])) hne
    · exact h0
  unfold calcCoords
  rw [hkt]
  simp only []
  rw [if_neg hne, if_neg (by omega)]
  rw [mapO_eq_map _ (fun o =>
    if 0 < width - 2 * (eng.T : Int) * (eng.Dt : Int) ∧
        0 < height - 2 * (eng.j : Int) * (eng.Dt : Int) then
      [c4Body eng ktl width height o]
    else []) _ ?side]
  case side =>
    intro o ho
    have hoTj : o < eng.T * eng.j := List.mem_range.mp ho
    have hcol : o % eng.T < eng.T := Nat.mod_lt _ hT
    have hrow : o / eng.T < eng.j := (Nat.div_lt_iff_lt_mul hT).mpr
      (by rw [Nat.mul_comm]; exact hoTj)
    have e1 : pyIndex eng.Lt ((o / eng.T : Nat) : Int) =
        some (eng.Lt.getD (o / eng.T) 0) := by
      rw [pyIndex_of_nonneg_lt _ _ (Int.natCast_nonneg _) (by
        rw [hLt]; exact_mod_cast hrow), Int.toNat_natCast]
    have e2 : pyIndex eng.Nt ((o % eng.T : Nat) : Int) =
        some (eng.Nt.getD (o % eng.T) 0) := by
      rw [pyIndex_of_nonneg_lt _ _ (Int.natCast_nonneg _) (by
        rw [hNt]; exact_mod_cast hcol), Int.toNat_natCast]
    have e3 : pyIndex ktl ((o : Nat) : Int) = some (ktl.getD o 0) := by
      rw [pyIndex_of_nonneg_lt _ _ (Int.natCast_nonneg _) (by
        rw [hlen]; exact_mod_cast hoTj), Int.toNat_natCast]
    have hktO : ktl.getD o 0 ∈ ktl := getD_mem 0 (by rw [hlen]; exact hoTj)
    obtain ⟨hk0, hkub⟩ := hval _ hktO
    have e4 : pyIndex eng.Rt (ktl.getD o 0 / (eng.T : Int)) =
        some (eng.Rt.getD (ktl.getD o 0 / (eng.T : Int)).toNat 0) :=
      pyIndex_of_nonneg_lt _ _
        (Int.ediv_nonneg hk0 (by exact_mod_cast hT.le))
        (by
          rw [hRt]
          exact (Int.ediv_lt_iff_lt_mul (by exact_mod_cast hT)).mpr
            (by rw [Int.mul_comm]; exact hkub))
    have e5 : pyIndex eng.Ft (ktl.getD o 0 % (eng.T : Int)) =
        some (eng.Ft.getD (ktl.getD o 0 % (eng.T : Int)).toNat 0) :=
      pyIndex_of_nonneg_lt _ _
        (Int.emod_nonneg _ (by exact_mod_cast hT.ne'))
        (by
          rw [hFt]
          exact Int.emod_lt_of_pos _ (by exact_mod_cast hT))
    show (pyIndex eng.Lt _).bind _ = _
    simp only [e1, e2, e3, e4, e5, Option.bind_eq_bind, Option.some_bind]
    rfl
  by_cases hg : 0 < width - 2 * (eng.T : Int) * (eng.Dt : Int) ∧
      0 < height - 2 * (eng.j : Int) * (eng.Dt : Int)
  · simp only [if_pos hg, Option.map_some']
    rw [flatten_map_singleton]
    rfl
  · simp only [if_neg hg, Option.map_some']
    rw [flatten_map_nil]

end Type2

/-! ## Claim C4: the full output formula of `Type2.calculate_coords` -/

/-- Claim C4: a Type 2 engine holding a valid permutation model (`kt` built
non-empty with every value in `[0, T*j)`), on dimensions with a positive
interior, emits exactly `T*j` rectangles, one per flat index in ascending
order, each given by the spec formula (`c4Body`), with no extra boundary
rectangles. -/
theorem type2_calc_coords_formula (key_h key_s : String) (eng : Type2.Engine)
    (ktl : List Int) (width height : Int)
    (hinit : Type2.init key_h key_s = some eng)
    (hkt : eng.kt = some ktl) (hne : ktl ≠ [])
    (hval : ∀ x ∈ ktl, 0 ≤ x ∧ x < (eng.T : Int) * (eng.j : Int))
    (hi : 0 < width - 2 * (eng.T : Int) * (eng.Dt : Int))
    (hn : 0 < height - 2 * (eng.j : Int) * (eng.Dt : Int)) :
    Type2.calcCoords eng width height =
      some (Type2.c4Formula eng ktl width height) ∧
    (Type2.c4Formula eng ktl width height).length = eng.T * eng.j := by
  obtain ⟨hlen, hLt, hNt, hRt, hFt, -⟩ := Type2.init_kt_inv hinit hkt
  rw [Type2.calcCoords_eval eng ktl width height hkt hne hlen hLt hNt hRt hFt hval]
  exact ⟨by rw [if_pos ⟨hi, hn⟩], by simp [Type2.c4Formula]⟩

set_option maxRecDepth 16384 in
/-- Witness for C4 at a concrete valid key pair and a 30 × 30 image. -/
theorem type2_calc_coords_formula_witness :
    Type2.init "=2-2-1-AAAAABCD" "=2-2+1-AAAAABCD" =
      some ⟨some [0, 1, 2, 3], 2, 2, 1, [0, 0], [0, 0], [0, 0], [0, 0]⟩ ∧
    (Type2.calcCoords ⟨some [0, 1, 2, 3], 2, 2, 1, [0, 0], [0, 0], [0, 0], [0, 0]⟩
        30 30 =
      some (Type2.c4Formula
        ⟨some [0, 1, 2, 3], 2, 2, 1, [0, 0], [0, 0], [0, 0], [0, 0]⟩
        [0, 1, 2, 3] 30 30) ∧
      (Type2.c4Formula ⟨some [0, 1, 2, 3], 2, 2, 1, [0, 0], [0, 0], [0, 0], [0, 0]⟩
        [0, 1, 2, 3] 30 30).length = 2 * 2) :=
  ⟨by decide,
    type2_calc_coords_formula "=2-2-1-AAAAABCD" "=2-2+1-AAAAABCD" _ _ 30 30
      (by decide) rfl (by decide) (by decide) (by decide) (by decide)⟩

/-! ## Claim C9: degenerate Type 2 dimensions give an empty list -/

/-- Claim C9: a Type 2 engine holding a valid permutation model, on
dimensions whose interior is degenerate (`i ≤ 0` or `n ≤ 0`), returns the
empty rectangle list without raising. -/
theorem type2_calc_coords_degenerate (key_h key_s : String) (eng : Type2.Engine)
    (ktl : List Int) (width height : Int)
    (hinit : Type2.init key_h key_s = some eng)
    (hkt : eng.kt = some ktl) (hne : ktl ≠ [])
    (hval : ∀ x ∈ ktl, 0 ≤ x ∧ x < (eng.T : Int) * (eng.j : Int))
    (hdeg : width - 2 * (eng.T : Int) * (eng.Dt : Int) ≤ 0 ∨
      height - 2 * (eng.j : Int) * (eng.Dt : Int) ≤ 0) :
    Type2.calcCoords eng width height = some [] := by
  obtain ⟨hlen, hLt, hNt, hRt, hFt, -⟩ := Type2.init_kt_inv hinit hkt
  rw [Type2.calcCoords_eval eng ktl width height hkt hne hlen hLt hNt hRt hFt hval]
  rw [if_neg (by rcases hdeg with h | h <;> omega)]

set_option maxRecDepth 16384 in
/-- Witness for C9: the same valid key pair on a 4-pixel-wide image
(`i = 4 - 2·2·1 = 0`). -/
theorem type2_calc_coords_degenerate_witness :
    Type2.init "=2-2-1-AAAAABCD" "=2-2+1-AAAAABCD" =
      some ⟨some [0, 1, 2, 3], 2, 2, 1, [0, 0], [0, 0], [0, 0], [0, 0]⟩ ∧
    Type2.calcCoords ⟨some [0, 1, 2, 3], 2, 2, 1, [0, 0], [0, 0], [0, 0], [0, 0]⟩
      4 30 = some [] :=
  ⟨by decide,
    type2_calc_coords_degenerate "=2-2-1-AAAAABCD" "=2-2+1-AAAAABCD" _ _ 4 30
      (by decide) rfl (by decide) (by decide) (Or.inl (by decide))⟩

namespace Type2


/-- The structural checks of `Type2._parse_keys` once both regexes have
matched: group-string and sign agreement, size limits, data lengths;
yields `(T, j, D, s_data, h_data)` when they all pass. -/
def structOkSome (sm hm : Groups) :
    Option (Nat × Nat × Nat × List Char × List Char) :=
  if sm.t = hm.t ∧ sm.j = hm.j ∧ sm.d = hm.d ∧ sm.sign = '+' ∧ hm.sign = '-' then
    if natOfDigits sm.t ≤ 8 ∧ natOfDigits sm.j ≤ 8 ∧
        natOfDigits sm.t * natOfDigits sm.j ≤ 64 then
      if sm.data.length =
          natOfDigits sm.t + natOfDigits sm.j +
            natOfDigits sm.t * natOfDigits sm.j ∧
         hm.data.length =
          natOfDigits sm.t + natOfDigits sm.j +
            natOfDigits sm.t * natOfDigits sm.j then
        some (natOfDigits sm.t, natOfDigits sm.j, natOfDigits sm.d,
          sm.data, hm.data)
      else none
    else none
  else none

/-- All structural checks of `Type2._parse_keys` in one test: regex match
of both keys plus `structOkSome`. -/
def structOk (key_h key_s : String) :
    Option (Nat × Nat × Nat × List Char × List Char) :=
  match matchKey key_s.toList, matchKey key_h.toList with
  | some sm, some hm => structOkSome sm hm
  | _, _ => none

/-- When any structural check fails, `Type2.__init__` still succeeds and
the engine holds no permutation. -/
theorem structOk_none_recover {key_h key_s : String}
    (h : structOk key_h key_s = none) :
    ∃ e, init key_h key_s = some e ∧ e.kt = none := by
  cases hms : matchKey key_s.toList with
  | none =>
    refine ⟨defaultEngine, ?_, rfl⟩
    unfold init
    rw [hms]
  | some sm =>
    cases hmh : matchKey key_h.toList with
    | none =>
      refine ⟨defaultEngine, ?_, rfl⟩
      unfold init
      rw [hms, hmh]
    | some hm =>
      have hs : structOkSome sm hm = none := by
        rw [← h]; unfold structOk; rw [hms, hmh]
      have hi : init key_h key_s = initSome sm hm := by
        unfold init; rw [hms, hmh]
      rw [hi]
      unfold structOkSome at hs
      unfold initSome
      by_cases hP1 : sm.t = hm.t ∧ sm.j = hm.j ∧ sm.d = hm.d ∧
          sm.sign = '+' ∧ hm.sign = '-'
      case neg =>
        rw [if_pos (by tauto)]
        exact ⟨defaultEngine, rfl, rfl⟩
      case pos =>
        rw [if_pos hP1] at hs
        rw [if_neg (by tauto)]
        simp only [] at hs ⊢
        by_cases hP2 : natOfDigits sm.t ≤ 8 ∧ natOfDigits sm.j ≤ 8 ∧
            natOfDigits sm.t * natOfDigits sm.j ≤ 64
        case neg =>
          rw [if_pos (by omega)]
          exact ⟨_, rfl, rfl⟩
        case pos =>
          rw [if_pos hP2] at hs
          rw [if_neg (by omega)]
          by_cases hP3 : sm.data.length =
              natOfDigits sm.t + natOfDigits sm.j +
                natOfDigits sm.t * natOfDigits sm.j ∧
             hm.data.length =
              natOfDigits sm.t + natOfDigits sm.j +
                natOfDigits sm.t * natOfDigits sm.j
          case pos => rw [if_pos hP3] at hs; cases hs
          case neg =>
            rw [if_pos (by tauto)]
            exact ⟨_, rfl, rfl⟩

end Type2

theorem getD_map_range {β} (f : Nat → β) {n u : Nat} (hu : u < n) (d : β) :
    ((List.range n).map f).getD u d = f u := by
  rw [List.getD_eq_getElem?_getD, List.getElem?_map, List.getElem?_range hu]
  rfl

namespace Type2

set_option maxRecDepth 8192 in
/-- When every structural check passes, `Type2.__init__` raises exactly
when some decoded unscramble-permutation value is at least `T*j` (all
decoded values being non-negative, this is the only way Python list
indexing `s_parsed.p[h_parsed.p[u]]` can fail). -/
theorem structOk_some_iff {key_h key_s : String} {T j D : Nat}
    {sd hd : List Char}
    (h : structOk key_h key_s = some (T, j, D, sd, hd)) :
    (init key_h key_s = none ↔
      ∃ x ∈ (parseSubKey T j hd).p, ((T : Int) * (j : Int)) ≤ x) := by
  cases hms : matchKey key_s.toList with
  | none => rw [structOk, hms] at h; cases h
  | some sm =>
  cases hmh : matchKey key_h.toList with
  | none => rw [structOk, hms, hmh] at h; cases h
  | some hm =>
  have hs : structOkSome sm hm = some (T, j, D, sd, hd) := by
    rw [← h]; unfold structOk; rw [hms, hmh]
  have hi : init key_h key_s = initSome sm hm := by
    unfold init; rw [hms, hmh]
  unfold structOkSome at hs
  split at hs
  case isFalse => cases hs
  case isTrue hc1 =>
  split at hs
  case isFalse => cases hs
  case isTrue hc2 =>
  split at hs
  case isFalse => cases hs
  case isTrue hc3 =>
  simp only [Option.some_inj, Prod.mk.injEq] at hs
  obtain ⟨rfl, rfl, rfl, rfl, rfl⟩ := hs
  obtain ⟨-, -, -, -, -, -, -, -, -, hhdata⟩ := matchKey_inv hmh
  have hval0 : ∀ x ∈ (parseSubKey (natOfDigits sm.t) (natOfDigits sm.j) hm.data).p,
      0 ≤ x ∧ x ≤ 63 := by
    intro x hx
    obtain ⟨c, hcmem, rfl⟩ := subKey_p_mem hc3.2 x hx
    exact decode2_range_of_dataChar (List.all_eq_true.mp hhdata c hcmem)
  have hplen : (parseSubKey (natOfDigits sm.t) (natOfDigits sm.j) hm.data).p.length =
      natOfDigits sm.t * natOfDigits sm.j := by simp [parseSubKey]
  have hslen : (parseSubKey (natOfDigits sm.t) (natOfDigits sm.j) sm.data).p.length =
      natOfDigits sm.t * natOfDigits sm.j := by simp [parseSubKey]
  rw [hi]
  unfold initSome
  rw [if_neg (by tauto)]
  simp only []
  rw [if_neg (by omega), if_neg (by tauto)]
  constructor
  · intro hnone
    cases hmap : mapO (fun (u : Nat) =>
        (pyIndex (parseSubKey (natOfDigits sm.t) (natOfDigits sm.j) hm.data).p
          (u : Int)).bind
          (fun hv => pyIndex
            (parseSubKey (natOfDigits sm.t) (natOfDigits sm.j) sm.data).p hv))
        (List.range (natOfDigits sm.t * natOfDigits sm.j)) with
    | some ktl => rw [hmap] at hnone; cases hnone
    | none =>
      obtain ⟨u, hu, hFu⟩ := mapO_none_iff.mp hmap
      have hulen : u < natOfDigits sm.t * natOfDigits sm.j := List.mem_range.mp hu
      have hpy : pyIndex
          (parseSubKey (natOfDigits sm.t) (natOfDigits sm.j) hm.data).p (u : Int) =
          some ((parseSubKey (natOfDigits sm.t) (natOfDigits sm.j) hm.data).p.getD u 0) := by
        rw [pyIndex_of_nonneg_lt _ _ (Int.natCast_nonneg _)
          (by rw [hplen]; exact_mod_cast hulen), Int.toNat_natCast]
      rw [hpy, Option.some_bind] at hFu
      have hmem : (parseSubKey (natOfDigits sm.t) (natOfDigits sm.j) hm.data).p.getD u 0 ∈
          (parseSubKey (natOfDigits sm.t) (natOfDigits sm.j) hm.data).p :=
        getD_mem 0 (by rw [hplen]; exact hulen)
      obtain ⟨h0, -⟩ := hval0 _ hmem
      rcases (pyIndex_eq_none_iff _ _).mp hFu with hlt | hge
      · omega
      · refine ⟨_, hmem, ?_⟩
        rw [hslen] at hge
        exact_mod_cast hge
  · rintro ⟨x, hx, hge⟩
    obtain ⟨u, hulen, hux⟩ := List.mem_iff_getElem.mp hx
    rw [hplen] at hulen
    have hgd : (parseSubKey (natOfDigits sm.t) (natOfDigits sm.j) hm.data).p.getD u 0 = x := by
      rw [List.getD_eq_getElem?_getD, List.getElem?_eq_getElem (by rw [hplen]; exact hulen)]
      simpa using hux
    have hFu : (pyIndex
        (parseSubKey (natOfDigits sm.t) (natOfDigits sm.j) hm.data).p (u : Int)).bind
        (fun hv => pyIndex
          (parseSubKey (natOfDigits sm.t) (natOfDigits sm.j) sm.data).p hv) = none := by
      rw [pyIndex_of_nonneg_lt _ _ (Int.natCast_nonneg _)
        (by rw [hplen]; exact_mod_cast hulen), Int.toNat_natCast, Option.some_bind,
        hgd]
      refine (pyIndex_eq_none_iff _ _).mpr (Or.inr ?_)
      rw [hslen]
      exact_mod_cast hge
    rw [mapO_eq_none _ _ ⟨u, List.mem_range.mpr hulen, hFu⟩]

end Type2

/-! ## Claim C3: Type 2 construction never fails (corrected) -/

set_option maxRecDepth 16384 in
/-- Counterexample to claim C3: the claim says Type 2 engine construction
never fails.  With the keys below (grammar and structure valid,
`T = j = 2`, but the unscramble permutation section decodes `'z'` to 51,
which is at or above `T*j = 4`), `kt[u] = s_parsed.p[h_parsed.p[u]]`
raises `IndexError`, so construction fails. -/
theorem type2_init_raises :
    Type2.init "=2-2-1-AAAAzAAA" "=2-2+1-AAAAAAAA" = none := by decide

/-- Claim C3 (amended): (a) whenever a structural check (grammar,
group/sign agreement, size limits, data lengths) fails, construction is
recovered: the engine is built with no permutation (identity fallback);
(b) when every structural check passes, construction fails (raises) exactly
when some decoded unscramble-permutation value is at or above `T*j` — such
keys are not recovered; (c) any permutation the constructor does build has
all its values in `[0, 64)`, but not necessarily in `[0, T*j)`. -/
theorem type2_init_recovery (key_h key_s : String) :
    (Type2.structOk key_h key_s = none →
      ∃ e, Type2.init key_h key_s = some e ∧ e.kt = none) ∧
    (∀ T j D : Nat, ∀ sd hd : List Char,
      Type2.structOk key_h key_s = some (T, j, D, sd, hd) →
      (Type2.init key_h key_s = none ↔
        ∃ x ∈ (Type2.parseSubKey T j hd).p, ((T : Int) * (j : Int)) ≤ x)) ∧
    (∀ e : Type2.Engine, ∀ l : List Int,
      Type2.init key_h key_s = some e → e.kt = some l →
      ∀ x ∈ l, 0 ≤ x ∧ x < 64) := by
  refine ⟨fun h => Type2.structOk_none_recover h,
    fun T j D sd hd h => Type2.structOk_some_iff h,
    fun e l he hl x hx => ?_⟩
  obtain ⟨-, -, -, -, -, hvals⟩ := Type2.init_kt_inv he hl
  obtain ⟨h0, h63⟩ := hvals x hx
  exact ⟨h0, by omega⟩

/-- Witness for C3 at the invalid key `"!"` (recovered fallback) — the
structural check fails and construction still succeeds with no
permutation. -/
theorem type2_init_recovery_witness :
    Type2.structOk "!" "!" = none ∧
      ∃ e, Type2.init "!" "!" = some e ∧ e.kt = none :=
  ⟨by decide, (type2_init_recovery "!" "!").1 (by decide)⟩

namespace Type1

/-! ## The canonical Type 1 destination grid

For the Type 1 partition property the unscramble map must place its pieces
on the canonical grid cells: cell `(a, b)` sits at logical coordinates
`(2a, 2b)` and takes the full base size on interior columns/rows and the
remainder size on the last column/row — exactly the cell classes the
`_parse_key` thresholds assign by ordinal. -/

/-- The canonical piece for grid cell `(a, b)`. -/
def canonPiece (ndx ndy a b : Nat) : Piece :=
  { x := 2 * (a : Int)
    y := 2 * (b : Int)
    w := if a + 1 < ndx then 2 else 1
    h := if b + 1 < ndy then 2 else 1 }

/-- All canonical pieces of an `ndx × ndy` grid (in some fixed order; the
partition hypothesis is up to permutation). -/
def canonicalPieces (ndx ndy : Nat) : List Piece :=
  (List.range ndx).flatMap (fun a => (List.range ndy).map (canonPiece ndx ndy a))

/-- Two rectangles with the same destination and size (sources may
differ); pixel coverage only looks at these four fields. -/
def DestEq (rc1 rc2 : Rect) : Prop :=
  rc1.width = rc2.width ∧ rc1.height = rc2.height ∧
    rc1.xdest = rc2.xdest ∧ rc1.ydest = rc2.ydest

theorem coveredB_congr {rc1 rc2 : Rect} (h : DestEq rc1 rc2) (px py : Int) :
    coveredB rc1 px py = coveredB rc2 px py := by
  obtain ⟨hw, hh, hx, hy⟩ := h
  unfold coveredB
  rw [hw, hh, hx, hy]

theorem coveredCount_eq_of_forall2 {la lb : List Rect}
    (h : List.Forall₂ DestEq la lb) (px py : Int) :
    coveredCount la px py = coveredCount lb px py := by
  induction h with
  | nil => rfl
  | cons hab _ ih =>
    unfold coveredCount at ih ⊢
    simp only [List.countP_cons, ih, coveredB_congr hab px py]

theorem forall2_destEq_mem {la lb : List Rect}
    (h : List.Forall₂ DestEq la lb) {rc : Rect} (hrc : rc ∈ la) :
    ∃ rc' ∈ lb, DestEq rc rc' := by
  induction h with
  | nil => cases hrc
  | cons hab htail ih =>
    rcases List.mem_cons.mp hrc with rfl | hrc'
    · exact ⟨_, List.mem_cons_self _ _, hab⟩
    · obtain ⟨rc', hrc', hde⟩ := ih hrc'
      exact ⟨rc', List.mem_cons_of_mem _ hrc', hde⟩

/-- Pairing each scramble piece with the unscramble piece of the same
index produces rectangles destination-equal to pairing the unscramble
piece with itself, as long as matched pieces share their size factors. -/
theorem zipWith_tileRect_destEq {l1 l2 : List Piece} (r e hh u : Int)
    (h : List.Forall₂ (fun f c => f.w = c.w ∧ f.h = c.h) l1 l2) :
    List.Forall₂ DestEq (List.zipWith (tileRect r e hh u) l1 l2)
      (l2.map (fun c => tileRect r e hh u c c)) := by
  induction h with
  | nil => exact List.Forall₂.nil
  | cons hab htail ih =>
    refine List.Forall₂.cons ?_ ih
    exact ⟨by simp [tileRect, hab.1], by simp [tileRect, hab.2], rfl, rfl⟩

/-- Both parsed maps of a constructed engine assign the same size factors
at every index. -/
theorem piece_factors_eq {key_h key_s : String} {eng : Engine}
    (hinit : init key_h key_s = some eng) :
    List.Forall₂ (fun f c => f.w = c.w ∧ f.h = c.h) eng.Tt.piece eng.Pt.piece := by
  obtain ⟨hts, hth, hx, hy⟩ := init_inv hinit
  obtain ⟨dataT, hlenT, hpT⟩ := parseKey_inv hts
  obtain ⟨dataP, hlenP, hpP⟩ := parseKey_inv hth
  rw [hpT, hpP, hx, hy]
  rw [List.forall₂_map_right_iff, List.forall₂_map_left_iff]
  refine List.forall₂_same.mpr (fun i hi => ?_)
  exact ⟨by simp [buildPiece, hx, hy], by simp [buildPiece, hx, hy]⟩

end Type1

theorem sum_map_ite {α} (l : List α) (p : α → Bool) (R : Nat) :
    (l.map (fun a => if p a then R else 0)).sum = l.countP p * R := by
  induction l with
  | nil => simp
  | cons a l ih =>
    simp only [List.map_cons, List.sum_cons, ih, List.countP_cons]
    by_cases h : p a
    · simp only [h, if_pos]
      ring
    · simp [h]

theorem countP_and_const {α} (l : List α) (c : Bool) (q : α → Bool) :
    (l.countP (fun b => c && q b)) = if c then l.countP q else 0 := by
  cases c <;> simp

namespace Type1

/-- Does the canonical column `a` (width `r` on interior columns, `e` on
the last) contain the abscissa `px`? -/
def colB (r e : Int) (ndx : Nat) (px : Int) (a : Nat) : Bool :=
  decide ((a : Int) * r ≤ px) &&
    decide (px < (a : Int) * r + (if a + 1 < ndx then r else e))

theorem coveredB_canon (r e hh u : Int) (ndx ndy a b : Nat) (px py : Int) :
    coveredB (tileRect r e hh u (canonPiece ndx ndy a b) (canonPiece ndx ndy a b))
        px py =
      (colB r e ndx px a && colB hh u ndy py b) := by
  unfold coveredB tileRect posOf canonPiece colB
  simp only []
  have h1 : (2 * (a : Int)) / 2 = (a : Int) := by omega
  have h2 : (2 * (a : Int)) % 2 = 0 := by omega
  have h3 : (2 * (b : Int)) / 2 = (b : Int) := by omega
  have h4 : (2 * (b : Int)) % 2 = 0 := by omega
  have h5 : ((if a + 1 < ndx then (2 : Int) else 1) / 2 * r +
      (if a + 1 < ndx then (2 : Int) else 1) % 2 * e) =
      (if a + 1 < ndx then r else e) := by
    split_ifs <;> norm_num
  have h6 : ((if b + 1 < ndy then (2 : Int) else 1) / 2 * hh +
      (if b + 1 < ndy then (2 : Int) else 1) % 2 * u) =
      (if b + 1 < ndy then hh else u) := by
    split_ifs <;> norm_num
  rw [h1, h2, h3, h4, h5, h6]
  simp only [zero_mul, add_zero]
  rw [Bool.and_assoc]

/-- Pixel count over the canonical destination rectangles factors into a
column count times a row count. -/
theorem canonical_count (r e hh u : Int) (ndx ndy : Nat) (px py : Int) :
    coveredCount ((canonicalPieces ndx ndy).map (fun c => tileRect r e hh u c c))
        px py =
      ((List.range ndx).countP (colB r e ndx px)) *
        ((List.range ndy).countP (colB hh u ndy py)) := by
  unfold coveredCount canonicalPieces
  rw [List.map_flatMap]
  rw [List.flatMap, List.countP_flatten, List.map_map]
  have inner : ∀ a : Nat,
      (((List.range ndy).map (canonPiece ndx ndy a)).map
        (fun c => tileRect r e hh u c c)).countP (fun rc => coveredB rc px py) =
      if colB r e ndx px a then (List.range ndy).countP (colB hh u ndy py) else 0 := by
    intro a
    rw [List.map_map, List.countP_map]
    have : ∀ b ∈ List.range ndy,
        (((fun rc => coveredB rc px py) ∘
          ((fun c => tileRect r e hh u c c) ∘ canonPiece ndx ndy a)) b = true ↔
        (fun b => colB r e ndx px a && colB hh u ndy py b) b = true) := by
      intro b _
      simp only [Function.comp_apply]
      rw [coveredB_canon r e hh u ndx ndy a b px py]
    rw [List.countP_congr this]
    exact countP_and_const _ _ _
  calc ((List.range ndx).map (fun a =>
          (((List.range ndy).map (canonPiece ndx ndy a)).map
            (fun c => tileRect r e hh u c c)).countP
            (fun rc => coveredB rc px py))).sum
      = ((List.range ndx).map (fun a =>
          if colB r e ndx px a then (List.range ndy).countP (colB hh u ndy py)
          else 0)).sum := by
        refine congrArg _ (List.map_congr_left ?_)
        intro a _
        exact inner a
    _ = _ := sum_map_ite _ _ _

end Type1

namespace Type1

/-- The canonical columns are consecutive intervals starting at 0, so for
non-negative base sizes exactly one column contains `px` when
`0 ≤ px < L = r·(ndx-1) + e`, and none otherwise. -/
theorem colB_count (r e : Int) (ndx : Nat) (px : Int)
    (hr : 0 ≤ r) (he : 0 ≤ e) (hnx : 1 ≤ ndx) :
    (List.range ndx).countP (colB r e ndx px) =
      if 0 ≤ px ∧ px < r * ((ndx : Int) - 1) + e then 1 else 0 := by
  obtain ⟨k, rfl⟩ : ∃ k, ndx = k + 1 := ⟨ndx - 1, by omega⟩
  have interior : ∀ m, m ≤ k →
      (List.range m).countP (colB r e (k + 1) px) =
        if 0 ≤ px ∧ px < (m : Int) * r then 1 else 0 := by
    intro m
    induction m with
    | zero =>
      intro _
      simp only [List.range_zero, List.countP_nil, Nat.cast_zero, zero_mul]
      rw [if_neg (by omega)]
    | succ mm ih =>
      intro hm
      rw [List.range_succ, List.countP_append, ih (by omega)]
      have hlast : colB r e (k + 1) px mm =
          (decide ((mm : Int) * r ≤ px) && decide (px < (mm : Int) * r + r)) := by
        unfold colB
        rw [if_pos (by omega)]
      have hs : ((mm + 1 : Nat) : Int) * r = (mm : Int) * r + r := by
        push_cast
        ring
      rw [hs]
      have hb : 0 ≤ (mm : Int) * r := mul_nonneg (Int.natCast_nonneg _) hr
      simp only [List.countP_cons, List.countP_nil, hlast, Bool.and_eq_true,
        decide_eq_true_eq, zero_add]
      set B := (mm : Int) * r with hB
      split_ifs <;> omega
  rw [List.range_succ, List.countP_append, interior k le_rfl]
  have hlast : colB r e (k + 1) px k =
      (decide ((k : Int) * r ≤ px) && decide (px < (k : Int) * r + e)) := by
    unfold colB
    rw [if_neg (by omega)]
  have hL : r * (((k + 1 : Nat) : Int) - 1) + e = (k : Int) * r + e := by
    push_cast
    ring
  rw [hL]
  have hb : 0 ≤ (k : Int) * r := mul_nonneg (Int.natCast_nonneg _) hr
  simp only [List.countP_cons, List.countP_nil, hlast, Bool.and_eq_true,
    decide_eq_true_eq, zero_add]
  set B := (k : Int) * r with hB
  split_ifs <;> omega

end Type1

namespace Type1

/-- For an extent of at least 8 the alignment bases are non-negative (and
the remainder is positive). -/
theorem bases_nonneg (w : Int) (hw : 8 ≤ w) :
    0 ≤ (bases w).1 ∧ 1 ≤ (bases w).2 := by
  have h1 : (bases w).1 = (w - w % 8 - 1) / 7 - ((w - w % 8 - 1) / 7) % 8 := rfl
  have h2 : (bases w).2 = (w - w % 8) - 7 * (bases w).1 := rfl
  omega

/-- A canonical cell lies inside `[0, r·(n-1) + e)` on its axis. -/
theorem cell_bound_1d (r e : Int) (n a : Nat) (hr : 0 ≤ r) (he : 0 ≤ e)
    (ha : a < n) :
    0 ≤ (a : Int) * r ∧
      (a : Int) * r + (if a + 1 < n then r else e) ≤ r * ((n : Int) - 1) + e := by
  refine ⟨mul_nonneg (Int.natCast_nonneg _) hr, ?_⟩
  split_ifs with hcase
  · have h1 : (a : Int) + 1 ≤ (n : Int) - 1 := by
      omega
    have h2 : ((a : Int) + 1) * r ≤ ((n : Int) - 1) * r :=
      mul_le_mul_of_nonneg_right h1 hr
    calc (a : Int) * r + r = ((a : Int) + 1) * r := by ring
      _ ≤ ((n : Int) - 1) * r := h2
      _ = r * ((n : Int) - 1) := by ring
      _ ≤ r * ((n : Int) - 1) + e := by linarith
  · have : (a : Int) = (n : Int) - 1 := by
      omega
    rw [this]
    have : ((n : Int) - 1) * r = r * ((n : Int) - 1) := by ring
    rw [this]

/-- Every canonical destination rectangle lies inside the image when the
covered extents fit. -/
theorem canonical_inBounds (r e s u : Int) (ndx ndy : Nat) (width height : Int)
    (hr : 0 ≤ r) (he : 0 ≤ e) (hs : 0 ≤ s) (hu : 0 ≤ u)
    (hL : r * ((ndx : Int) - 1) + e ≤ width)
    (hV : s * ((ndy : Int) - 1) + u ≤ height)
    {rc : Rect}
    (hrc : rc ∈ (canonicalPieces ndx ndy).map (fun c => tileRect r e s u c c)) :
    0 ≤ rc.xdest ∧ rc.xdest + rc.width ≤ width ∧
      0 ≤ rc.ydest ∧ rc.ydest + rc.height ≤ height := by
  obtain ⟨c, hc, rfl⟩ := List.mem_map.mp hrc
  obtain ⟨a, ha, hc2⟩ := List.mem_flatMap.mp hc
  obtain ⟨b, hb, rfl⟩ := List.mem_map.mp hc2
  have ha' : a < ndx := List.mem_range.mp ha
  have hb' : b < ndy := List.mem_range.mp hb
  have e1 : (2 * (a : Int)) / 2 = (a : Int) := by omega
  have e2 : (2 * (a : Int)) % 2 = 0 := by omega
  have e3 : (2 * (b : Int)) / 2 = (b : Int) := by omega
  have e4 : (2 * (b : Int)) % 2 = 0 := by omega
  have e5 : ((if a + 1 < ndx then (2 : Int) else 1) / 2 * r +
      (if a + 1 < ndx then (2 : Int) else 1) % 2 * e) =
      (if a + 1 < ndx then r else e) := by
    split_ifs <;> norm_num
  have e6 : ((if b + 1 < ndy then (2 : Int) else 1) / 2 * s +
      (if b + 1 < ndy then (2 : Int) else 1) % 2 * u) =
      (if b + 1 < ndy then s else u) := by
    split_ifs <;> norm_num
  obtain ⟨hax0, haxw⟩ := cell_bound_1d r e ndx a hr he ha'
  obtain ⟨hby0, hbyh⟩ := cell_bound_1d s u ndy b hs hu hb'
  refine ⟨?_, ?_, ?_, ?_⟩ <;>
    simp only [tileRect, posOf, canonPiece, e1, e2, e3, e4, e5, e6,
      zero_mul, add_zero]
  · exact hax0
  · linarith
  · exact hby0
  · linarith

end Type1

theorem coveredCount_append (l1 l2 : List Rect) (px py : Int) :
    coveredCount (l1 ++ l2) px py = coveredCount l1 px py + coveredCount l2 px py :=
  List.countP_append _ _ _

theorem coveredCount_singleton (rc : Rect) (px py : Int) :
    coveredCount [rc] px py =
      if rc.xdest ≤ px ∧ px < rc.xdest + rc.width ∧
          rc.ydest ≤ py ∧ py < rc.ydest + rc.height
      then 1 else 0 := by
  unfold coveredCount coveredB
  simp [List.countP_cons, and_assoc]

namespace Type1

/-- The right remainder strip `(l, 0, width-l, v, l, 0)`. -/
def rightStrip (L V width : Int) : Rect :=
  { xsrc := L, ysrc := 0, width := width - L, height := V, xdest := L, ydest := 0 }

/-- The bottom remainder strip `(0, v, width, height-v, 0, v)`. -/
def bottomStrip (V width height : Int) : Rect :=
  { xsrc := 0, ysrc := V, width := width, height := height - V, xdest := 0, ydest := V }

/-- The canonical destination rectangles plus the conditional remainder
strips exactly partition the image, for non-negative bases and covered
extents that fit inside the image. -/
theorem canonical_partition (r e s u L V width height : Int) (ndx ndy : Nat)
    (hr : 0 ≤ r) (he : 0 ≤ e) (hs : 0 ≤ s) (hu : 0 ≤ u)
    (hnx : 1 ≤ ndx) (hny : 1 ≤ ndy)
    (hLdef : L = r * ((ndx : Int) - 1) + e)
    (hVdef : V = s * ((ndy : Int) - 1) + u)
    (hL : L ≤ width) (hV : V ≤ height) :
    ExactPartition
      ((((canonicalPieces ndx ndy).map (fun c => tileRect r e s u c c)) ++
        (if L < width then [rightStrip L V width] else [])) ++
        (if V < height then [bottomStrip V width height] else []))
      width height := by
  have hL0 : 0 ≤ L := by
    rw [hLdef]
    have : (0 : Int) ≤ (ndx : Int) - 1 := by omega
    exact add_nonneg (mul_nonneg hr this) he
  have hV0 : 0 ≤ V := by
    rw [hVdef]
    have : (0 : Int) ≤ (ndy : Int) - 1 := by omega
    exact add_nonneg (mul_nonneg hs this) hu
  constructor
  · intro px py h0x hxw h0y hyh
    rw [coveredCount_append, coveredCount_append,
      canonical_count r e s u ndx ndy px py,
      colB_count r e ndx px hr he hnx, colB_count s u ndy py hs hu hny,
      ← hLdef, ← hVdef]
    by_cases hs1 : L < width
    · by_cases hs2 : V < height
      · rw [if_pos hs1, if_pos hs2, coveredCount_singleton, coveredCount_singleton]
        simp only [rightStrip, bottomStrip]
        split_ifs <;> omega
      · rw [if_pos hs1, if_neg hs2, coveredCount_singleton]
        simp only [rightStrip]
        show _ + _ + coveredCount [] px py = 1
        unfold coveredCount
        simp only [List.countP_nil]
        split_ifs <;> omega
    · by_cases hs2 : V < height
      · rw [if_neg hs1, if_pos hs2, coveredCount_singleton]
        simp only [bottomStrip]
        show _ + coveredCount [] px py + _ = 1
        unfold coveredCount
        simp only [List.countP_nil]
        split_ifs <;> omega
      · rw [if_neg hs1, if_neg hs2]
        show _ + coveredCount [] px py + coveredCount [] px py = 1
        unfold coveredCount
        simp only [List.countP_nil]
        split_ifs <;> omega
  · intro rc hrc
    rcases List.mem_append.mp hrc with hrc1 | hrc1
    · rcases List.mem_append.mp hrc1 with hrc2 | hrc2
      · exact canonical_inBounds r e s u ndx ndy width height hr he hs hu
          (hLdef ▸ hL) (hVdef ▸ hV) hrc2
      · by_cases hs1 : L < width
        · rw [if_pos hs1] at hrc2
          obtain rfl := List.mem_singleton.mp hrc2
          refine ⟨hL0, by simp [rightStrip], by simp [rightStrip], ?_⟩
          simp only [rightStrip]
          omega
        · rw [if_neg hs1] at hrc2
          cases hrc2
    · by_cases hs2 : V < height
      · rw [if_pos hs2] at hrc1
        obtain rfl := List.mem_singleton.mp hrc1
        refine ⟨by simp [bottomStrip], by simp [bottomStrip], ?_, ?_⟩
        · simp only [bottomStrip]
          omega
        · simp only [bottomStrip]
          omega
      · rw [if_neg hs2] at hrc1
        cases hrc1

end Type1

namespace Type1

/-- `ExactPartition` only depends on destinations and sizes: it transfers
along a destination-preserving correspondence that also preserves pixel
counts. -/
theorem ExactPartition_transfer {la lb : List Rect} {w h : Int}
    (hcount : ∀ px py : Int, coveredCount la px py = coveredCount lb px py)
    (hmem : ∀ rc ∈ la, ∃ rc' ∈ lb, DestEq rc rc')
    (hp : ExactPartition lb w h) : ExactPartition la w h := by
  obtain ⟨hpix, hbound⟩ := hp
  refine ⟨fun px py h1 h2 h3 h4 => by
    rw [hcount]
    exact hpix px py h1 h2 h3 h4, ?_⟩
  intro rc hrc
  obtain ⟨rc', hrc', hde⟩ := hmem rc hrc
  obtain ⟨hw', hh', hx', hy'⟩ := hde
  rw [hw', hh', hx', hy']
  exact hbound rc' hrc'

end Type1

/-! ## Claim C1: the Type 1 destination rectangles partition the image -/

/-- Counterexample to claim C1 as stated: both keys `"2-1-AAAA"` parse
successfully with matching `(ndx, ndy) = (2, 1)` (all four data characters
decode, placing both pieces at logical coordinates `(0,0)`), yet at
`width = height = 100` the pixel `(0,0)` lies in two destination
rectangles — the destinations overlap instead of partitioning the
image. -/
theorem type1_partition_cex :
    ((Type1.init "2-1-AAAA" "2-1-AAAA").bind
        (fun e => Type1.calcCoords e 100 100)).map
      (fun rs => coveredCount rs 0 0) = some 2 := by decide

set_option maxHeartbeats 1000000 in
/-- Claim C1 (amended): for a constructed Type 1 engine whose unscramble
map places its pieces exactly on the canonical grid cells (up to order),
with a non-trivial grid and dimensions at least 8 whose covered extents
`L = r·(ndx-1)+e` and `V = h·(ndy-1)+u` fit inside the image,
`calculate_coords` succeeds and its destination rectangles (tiles plus the
conditional right/bottom remainder strips) exactly partition
`[0,width) × [0,height)`: every pixel is covered exactly once and no
rectangle leaves the image. -/
theorem type1_coords_partition (key_h key_s : String) (eng : Type1.Engine)
    (width height : Int)
    (hinit : Type1.init key_h key_s = some eng)
    (hperm : eng.Pt.piece.Perm (Type1.canonicalPieces eng.Pt.ndx eng.Pt.ndy))
    (hnx : 1 ≤ eng.Pt.ndx) (hny : 1 ≤ eng.Pt.ndy)
    (hw8 : 8 ≤ width) (hh8 : 8 ≤ height)
    (hLw : (Type1.bases width).1 * ((eng.Pt.ndx : Int) - 1) +
      (Type1.bases width).2 ≤ width)
    (hVh : (Type1.bases height).1 * ((eng.Pt.ndy : Int) - 1) +
      (Type1.bases height).2 ≤ height) :
    Type1.calcCoords eng width height = some (Type1.c5Formula eng width height) ∧
    ExactPartition (Type1.c5Formula eng width height) width height := by
  obtain ⟨hts, hth, hx, hy⟩ := Type1.init_inv hinit
  obtain ⟨dataT, hlenT, hpT⟩ := Type1.parseKey_inv hts
  obtain ⟨dataP, hlenP, hpP⟩ := Type1.parseKey_inv hth
  have hlen : eng.Tt.piece.length = eng.Pt.piece.length := by
    rw [hpT, hpP]
    simp [hx, hy]
  refine ⟨Type1.calcCoords_eq_of_lengths eng width height hlen, ?_⟩
  have hr := (Type1.bases_nonneg width hw8).1
  have he : (0 : Int) ≤ (Type1.bases width).2 := by
    linarith [(Type1.bases_nonneg width hw8).2]
  have hsv := (Type1.bases_nonneg height hh8).1
  have hu : (0 : Int) ≤ (Type1.bases height).2 := by
    linarith [(Type1.bases_nonneg height hh8).2]
  have hform : Type1.c5Formula eng width height =
      ((List.zipWith
          (Type1.tileRect (Type1.bases width).1 (Type1.bases width).2
            (Type1.bases height).1 (Type1.bases height).2)
          eng.Tt.piece eng.Pt.piece ++
        (if (Type1.bases width).1 * ((eng.Tt.ndx : Int) - 1) +
            (Type1.bases width).2 < width then
          [Type1.rightStrip
            ((Type1.bases width).1 * ((eng.Tt.ndx : Int) - 1) +
              (Type1.bases width).2)
            ((Type1.bases height).1 * ((eng.Tt.ndy : Int) - 1) +
              (Type1.bases height).2) width]
         else [])) ++
        (if (Type1.bases height).1 * ((eng.Tt.ndy : Int) - 1) +
            (Type1.bases height).2 < height then
          [Type1.bottomStrip
            ((Type1.bases height).1 * ((eng.Tt.ndy : Int) - 1) +
              (Type1.bases height).2) width height]
         else [])) := rfl
  rw [hform, hx, hy]
  have hfac := Type1.piece_factors_eq hinit
  have hzip := Type1.zipWith_tileRect_destEq (Type1.bases width).1
    (Type1.bases width).2 (Type1.bases height).1 (Type1.bases height).2 hfac
  have hpermmap := hperm.map
    (fun c => Type1.tileRect (Type1.bases width).1 (Type1.bases width).2
      (Type1.bases height).1 (Type1.bases height).2 c c)
  refine Type1.ExactPartition_transfer ?_ ?_
    (Type1.canonical_partition (Type1.bases width).1 (Type1.bases width).2
      (Type1.bases height).1 (Type1.bases height).2 _ _ width height
      eng.Pt.ndx eng.Pt.ndy hr he hsv hu hnx hny rfl rfl hLw hVh)
  · intro px py
    simp only [coveredCount_append]
    rw [Type1.coveredCount_eq_of_forall2 hzip px py]
    have hc2 : coveredCount (eng.Pt.piece.map
        (fun c => Type1.tileRect (Type1.bases width).1 (Type1.bases width).2
          (Type1.bases height).1 (Type1.bases height).2 c c)) px py =
        coveredCount ((Type1.canonicalPieces eng.Pt.ndx eng.Pt.ndy).map
          (fun c => Type1.tileRect (Type1.bases width).1 (Type1.bases width).2
            (Type1.bases height).1 (Type1.bases height).2 c c)) px py := by
      unfold coveredCount
      exact hpermmap.countP_eq _
    rw [hc2]
  · intro rc hrc
    rcases List.mem_append.mp hrc with h1 | h1
    · rcases List.mem_append.mp h1 with h2 | h2
      · obtain ⟨rc', hrc', hde⟩ := Type1.forall2_destEq_mem hzip h2
        have hmem2 : rc' ∈ (Type1.canonicalPieces eng.Pt.ndx eng.Pt.ndy).map
            (fun c => Type1.tileRect (Type1.bases width).1 (Type1.bases width).2
              (Type1.bases height).1 (Type1.bases height).2 c c) :=
          hpermmap.mem_iff.mp hrc'
        exact ⟨rc', List.mem_append.mpr (Or.inl (List.mem_append.mpr (Or.inl hmem2))),
          hde⟩
      · exact ⟨rc, List.mem_append.mpr (Or.inl (List.mem_append.mpr (Or.inr h2))),
          ⟨rfl, rfl, rfl, rfl⟩⟩
    · exact ⟨rc, List.mem_append.mpr (Or.inr h1), ⟨rfl, rfl, rfl, rfl⟩⟩

/-- Witness for the amended C1 at the key `"1-1-AA"` and a 10 × 10 image
(whose unscramble map is exactly the canonical 1 × 1 grid). -/
theorem type1_coords_partition_witness :
    (Type1.init "1-1-AA" "1-1-AA" =
        some ⟨⟨1, 1, [⟨0, 0, 1, 1⟩]⟩, ⟨1, 1, [⟨0, 0, 1, 1⟩]⟩⟩ ∧
      Type1.canonicalPieces 1 1 = [⟨0, 0, 1, 1⟩]) ∧
    (Type1.calcCoords ⟨⟨1, 1, [⟨0, 0, 1, 1⟩]⟩, ⟨1, 1, [⟨0, 0, 1, 1⟩]⟩⟩ 10 10 =
        some (Type1.c5Formula
          ⟨⟨1, 1, [⟨0, 0, 1, 1⟩]⟩, ⟨1, 1, [⟨0, 0, 1, 1⟩]⟩⟩ 10 10) ∧
      ExactPartition (Type1.c5Formula
        ⟨⟨1, 1, [⟨0, 0, 1, 1⟩]⟩, ⟨1, 1, [⟨0, 0, 1, 1⟩]⟩⟩ 10 10) 10 10) :=
  ⟨⟨by decide, by decide⟩,
    type1_coords_partition "1-1-AA" "1-1-AA" _ 10 10 (by decide)
      (by rw [show Type1.canonicalPieces 1 1 = [⟨0, 0, 1, 1⟩] from by decide])
      (by decide) (by decide) (by decide) (by decide) (by decide) (by decide)⟩
